import Mathlib

/-!
Shallow embedding of the ICON log-mining utility (`util/icon/mining_util.py`)
and proofs of the frozen claims about it.

Modelling conventions:
* Python strings are modelled as `List Char` (ASCII fragment; the logs are
  ASCII).  A helper `toCh` converts a Lean string literal to the model type.
* Python `float` values are modelled as exact decimal numbers (`Dec`
  below); every numeric value appearing in the claims is exactly
  representable, so no rounding behaviour is relevant.  Python
  `float("inf")`/`"nan"` literal forms and PEP 515 underscore separators
  are outside the modelled fragment (no log token uses them).
* Python's dynamic typing is modelled with small sum types (`PyVal`,
  `PyLine`, `PyObj`); a raised exception is modelled with `PyResult`.
-/

set_option maxRecDepth 100000

/-- Convert a Lean string literal to the model type for Python strings. -/
def toCh (s : String) : List Char := s.data

/-- Python `\s` / `str.strip` whitespace on the ASCII fragment:
space, tab, newline, carriage return, vertical tab, form feed. -/
def pyIsSpace (c : Char) : Bool :=
  c = ' ' || c = '\t' || c = '\n' || c = '\r' || c = '\x0b' || c = '\x0c'

/-- Drop elements from the right end of a list while they satisfy `p`. -/
def dropRightWhile (p : Char → Bool) (l : List Char) : List Char :=
  (l.reverse.dropWhile p).reverse

/-- Python `str.strip()`: remove leading and trailing whitespace. -/
def pyStrip (l : List Char) : List Char :=
  dropRightWhile pyIsSpace (l.dropWhile pyIsSpace)

/-- Embedding of `re.sub(r"[\s]+", "-", line)`: every maximal run of
whitespace characters is replaced by a single `'-'`.  The boolean argument
records whether the previous character was whitespace (i.e. whether we are
inside a run that has already emitted its `'-'`). -/
def subWs : Bool → List Char → List Char
  | _, [] => []
  | inRun, c :: rest =>
    if pyIsSpace c then
      if inRun then subWs true rest else '-' :: subWs true rest
    else
      c :: subWs false rest

/-- Embedding of `line.split("-")` (Python keeps empty pieces). -/
def splitOnDash : List Char → List (List Char)
  | [] => [[]]
  | c :: rest =>
    if c = '-' then [] :: splitOnDash rest
    else
      match splitOnDash rest with
      | [] => [[c]]
      | t :: ts => (c :: t) :: ts

/-- Embedding of `line.split("\n")` used by `isolate_table`. -/
def splitNl : List Char → List (List Char)
  | [] => [[]]
  | c :: rest =>
    if c = '\n' then [] :: splitNl rest
    else
      match splitNl rest with
      | [] => [[c]]
      | t :: ts => (c :: t) :: ts

/-- Remove the first `'.'` of a string, if any: embedding of
`element.replace(".", "", 1)`. -/
def replaceDotOnce : List Char → List Char
  | [] => []
  | c :: rest => if c = '.' then rest else c :: replaceDotOnce rest

/-- Embedding of Python `str.isdigit()` on the ASCII fragment: non-empty and
all characters are decimal digits. -/
def pyIsDigitStr (l : List Char) : Bool :=
  !l.isEmpty && l.all Char.isDigit

/-- Core of the regex `^\d+(\.\d+)?\(s\)$`: one or more digits, an optional
dot followed by one or more digits, then the literal characters `(s)`. -/
def numWithSCore (l : List Char) : Bool :=
  let ip := l.takeWhile Char.isDigit
  let r1 := l.drop ip.length
  if ip.isEmpty then false
  else
    match r1 with
    | '(' :: 's' :: ')' :: [] => true
    | '.' :: r2 =>
      let fp := r2.takeWhile Char.isDigit
      let r3 := r2.drop fp.length
      !fp.isEmpty && r3 = ['(', 's', ')']
    | _ => false

/-- Embedding of `is_number_with_s` (`mining_util.py:108`):
`bool(re.match(r"^\d+(\.\d+)?\(s\)$", element))`.  In Python's `re`, `$`
also matches just before a single trailing newline, which the second
disjunct reproduces (tokens produced by `process_line` never contain
whitespace, so that disjunct is dead on the pipeline's own inputs). -/
def is_number_with_s (element : List Char) : Bool :=
  numWithSCore element ||
    (element.getLast? = some '\n' && numWithSCore element.dropLast)

/-- Embedding of `process_line` (`mining_util.py:123`): collapse whitespace
runs to `'-'`, strip a stray leading `L` marker (`lstrip("L-")` removes all
leading characters from the set `{L, -}`), split on `'-'`, and drop
elements that match `is_number_with_s` or are `" "`, `"#"`, or `""`. -/
def process_line (line : List Char) : List (List Char) :=
  let line1 := subWs false line
  let line2 :=
    if line1.head? = some 'L' then line1.dropWhile (fun c => c = 'L' || c = '-')
    else line1
  (splitOnDash line2).filter
    (fun e => !(is_number_with_s e || e = [' '] || e = ['#'] || e = []))

/-- Exact decimal number: `num / 10 ^ den10`.  This models the Python
`float` values flowing through `line_to_dataclass`: every literal the code
coerces is a decimal literal, and every comparison the code performs
(`< 0`, `== 0`) and every arithmetic step (`minutes * 60 + seconds`,
`abs`) is exact on decimals, so the binary-rounding of IEEE floats is
irrelevant on the modelled fragment (extreme exponents that would
overflow or underflow a double are outside it). -/
structure Dec where
  num : ℤ
  den10 : ℕ
deriving DecidableEq

/-- Rational value of a `Dec`. -/
def Dec.toQ (d : Dec) : ℚ := (d.num : ℚ) / (10 : ℚ) ^ d.den10

/-- Canonical form: strip factors of ten shared by numerator and
denominator, so that equal decimal values have equal representations
(as Python float equality identifies `2.0` and `2.00`). -/
def normDec : ℤ → ℕ → Dec
  | n, 0 => ⟨n, 0⟩
  | n, e + 1 => if n % 10 = 0 then normDec (n / 10) e else ⟨n, e + 1⟩

/-- Build the canonical `Dec` for `n / 10 ^ e`. -/
def mkDec (n : ℤ) (e : ℕ) : Dec := normDec n e

/-- The decimal for an integer. -/
def ofIntD (n : ℤ) : Dec := mkDec n 0

/-- Exact decimal addition. -/
def addD (a b : Dec) : Dec :=
  mkDec (a.num * 10 ^ b.den10 + b.num * 10 ^ a.den10) (a.den10 + b.den10)

/-- Exact decimal multiplication. -/
def mulD (a b : Dec) : Dec := mkDec (a.num * b.num) (a.den10 + b.den10)

/-- Negation (sign lives in the numerator, so no renormalization). -/
def negD (a : Dec) : Dec := ⟨-a.num, a.den10⟩

/-- Python `value < 0` on the model. -/
def ltZeroD (a : Dec) : Bool := a.num < 0

/-- Python `value == 0` on the model. -/
def eqZeroD (a : Dec) : Bool := a.num = 0

/-- Numeric value of a digit string, e.g. `digitsToNat "15" = 15`. -/
def digitsToNat (l : List Char) : ℕ :=
  l.foldl (fun n c => n * 10 + (c.toNat - '0'.toNat)) 0

/-- Scale the decimal `n / 10 ^ e10` by `10 ^ e` (the exponent part of a
float literal). -/
def applyExpD (n : ℤ) (e10 : ℕ) (e : ℤ) : Dec :=
  if 0 ≤ e then mkDec (n * 10 ^ e.toNat) e10 else mkDec n (e10 + (-e).toNat)

/-- Optional exponent part of a Python float literal: empty, or
`e`/`E`, an optional sign, and one or more digits, consuming the input. -/
def parseExp : List Char → Option ℤ
  | [] => some 0
  | c :: rest =>
    if c = 'e' || c = 'E' then
      match rest with
      | '+' :: ds => if pyIsDigitStr ds then some (digitsToNat ds) else none
      | '-' :: ds => if pyIsDigitStr ds then some (-(digitsToNat ds : ℤ)) else none
      | ds => if pyIsDigitStr ds then some (digitsToNat ds) else none
    else none

/-- Unsigned part of a Python float literal: `D+ [. D*]` or `. D+`,
optionally followed by an exponent; the whole input must be consumed. -/
def parseUnsigned (s : List Char) : Option Dec :=
  let ip := s.takeWhile Char.isDigit
  let r1 := s.drop ip.length
  match r1 with
  | '.' :: r2 =>
    let fp := r2.takeWhile Char.isDigit
    let r3 := r2.drop fp.length
    if ip.isEmpty && fp.isEmpty then none
    else
      (parseExp r3).map
        (applyExpD (digitsToNat ip * 10 ^ fp.length + digitsToNat fp) fp.length)
  | _ =>
    if ip.isEmpty then none
    else (parseExp r1).map (applyExpD (digitsToNat ip) 0)

/-- Embedding of Python `float(s)` on the modelled fragment: strip
whitespace, read an optional sign, then an unsigned decimal literal with
optional fraction and exponent.  `none` models a raised `ValueError`.
(`inf`/`nan` literal forms and PEP 515 underscores are outside the
fragment; no log token uses them.) -/
def pyFloat (cs : List Char) : Option Dec :=
  match pyStrip cs with
  | '+' :: rest => parseUnsigned rest
  | '-' :: rest => (parseUnsigned rest).map negD
  | s => parseUnsigned s

/-- Python value as it flows through `line_to_dataclass`: a string, a
float (exact decimal model), or an int. -/
inductive PyVal where
  | s (cs : List Char)
  | f (d : Dec)
  | i (n : ℤ)
deriving DecidableEq

/-- Match `(\d+)m(\d+)s` at the head of the input (with the regex's greedy
digit runs, which are forced here because `m`/`s` are not digits). -/
def msAt (cs : List Char) : Option (List Char × List Char) :=
  let d1 := cs.takeWhile Char.isDigit
  let r1 := cs.drop d1.length
  match r1 with
  | 'm' :: r2 =>
    let d2 := r2.takeWhile Char.isDigit
    let r3 := r2.drop d2.length
    if d1.isEmpty || d2.isEmpty then none
    else
      match r3 with
      | 's' :: _ => some (d1, d2)
      | _ => none
  | _ => none

/-- Embedding of `re.search(r"(\d+)m(\d+)s", value)`: scan left to right
for the first position where the pattern matches and return its groups. -/
def searchMS : List Char → Option (List Char × List Char)
  | [] => none
  | c :: t =>
    match msAt (c :: t) with
    | some r => some r
    | none => searchMS t

/-- Embedding of the duration-suffix step of `line_to_dataclass`
(`mining_util.py:267-276`): for a string value ending in `s`, if the
remainder passes `value[:-1].replace(".", "", 1).isdigit()` it becomes
`float(value[:-1])`; otherwise, if `re.search(r"(\d+)m(\d+)s", value)`
matches, it becomes `float(minutes) * 60 + float(seconds)`; otherwise the
string is left unchanged.  (The digit test guarantees the `float` call
succeeds on the modelled ASCII fragment, proved below, so the `getD`
default is never used.) -/
def durationStep (tok : List Char) : PyVal :=
  if tok.getLast? = some 's' then
    let rem := tok.dropLast
    if pyIsDigitStr (replaceDotOnce rem) then .f ((pyFloat rem).getD (ofIntD 0))
    else
      match searchMS tok with
      | some (a, b) =>
        .f (addD (mulD (ofIntD (digitsToNat a)) (ofIntD 60)) (ofIntD (digitsToNat b)))
      | none => .s tok
  else .s tok

/-- Embedding of `float(value) if not isinstance(value, float) else value`
inside the `try` block: a float passes through, a string goes through
`float(...)`; `none` models a raised `ValueError`.  (No int can reach this
point in the source.) -/
def tryCoerce : PyVal → Option Dec
  | .f d => some d
  | .s cs => pyFloat cs
  | .i n => some (ofIntD n)

/-- Embedding of the normalization in the `try` block
(`mining_util.py:281-285`): `if value < 0: value = abs(value)` then
`if value == 0: value = int(value)`. -/
def normVal (d : Dec) : PyVal :=
  let d1 := if ltZeroD d then negD d else d
  if eqZeroD d1 then .i 0 else .f d1

/-- Full per-token transformation of `line_to_dataclass`: the duration
step, then the coercion `try` block (a `ValueError` is swallowed by the
`except` clause, keeping the current value). -/
def mapToken (tok : List Char) : PyVal :=
  let v := durationStep tok
  match tryCoerce v with
  | some d => normVal d
  | none => v

/-- Exceptions raised by the modelled code. -/
inductive PyError where
  | typeError
  | indexError
  | valueError
deriving DecidableEq

/-- Result of running a Python function: normal return or raised
exception. -/
inductive PyResult (α : Type) where
  | ok (a : α)
  | exn (e : PyError)
deriving DecidableEq

/-- Embedding of the dataclass `MatchResultsICON` (`mining_util.py:27`):
thirteen list-valued fields, in the source's field order. -/
structure MatchResultsICON where
  name : List PyVal := []
  calls : List PyVal := []
  t_min : List PyVal := []
  min_rank : List PyVal := []
  t_avg : List PyVal := []
  t_max : List PyVal := []
  max_rank : List PyVal := []
  total_min : List PyVal := []
  total_min_rank : List PyVal := []
  total_max : List PyVal := []
  total_max_rank : List PyVal := []
  total_avg : List PyVal := []
  pe : List PyVal := []
deriving DecidableEq

/-- Embedding of `getattr(results_dataclass, attribute_names[i]).append(value)`:
append `v` to the `i`-th field (fields in dataclass order); `none` models
the `IndexError` raised by `attribute_names[i]` when `i ≥ 13`. -/
def setAppend (r : MatchResultsICON) (i : ℕ) (v : PyVal) :
    Option MatchResultsICON :=
  match i with
  | 0 => some { r with name := r.name ++ [v] }
  | 1 => some { r with calls := r.calls ++ [v] }
  | 2 => some { r with t_min := r.t_min ++ [v] }
  | 3 => some { r with min_rank := r.min_rank ++ [v] }
  | 4 => some { r with t_avg := r.t_avg ++ [v] }
  | 5 => some { r with t_max := r.t_max ++ [v] }
  | 6 => some { r with max_rank := r.max_rank ++ [v] }
  | 7 => some { r with total_min := r.total_min ++ [v] }
  | 8 => some { r with total_min_rank := r.total_min_rank ++ [v] }
  | 9 => some { r with total_max := r.total_max ++ [v] }
  | 10 => some { r with total_max_rank := r.total_max_rank ++ [v] }
  | 11 => some { r with total_avg := r.total_avg ++ [v] }
  | 12 => some { r with pe := r.pe ++ [v] }
  | _ => none

/-- The `for i, value in enumerate(line)` loop of `line_to_dataclass`:
map each token and append it to the field at its position; raise
`IndexError` past the last field. -/
def dataclassLoop (r : MatchResultsICON) (i : ℕ) :
    List (List Char) → PyResult MatchResultsICON
  | [] => .ok r
  | tok :: rest =>
    match setAppend r i (mapToken tok) with
    | some r1 => dataclassLoop r1 (i + 1) rest
    | none => .exn .indexError

/-- Embedding of `line_to_dataclass` (`mining_util.py:254`): start from a
fresh dataclass and run the enumerate loop. -/
def line_to_dataclass (line : List (List Char)) : PyResult MatchResultsICON :=
  dataclassLoop {} 0 line

/-- Closed form for the record built from a row of at most 13 tokens:
field `k` holds the mapped `k`-th token, or is empty when the row is
shorter. -/
def mkRec (line : List (List Char)) : MatchResultsICON where
  name := (line.get? 0).elim [] (fun t => [mapToken t])
  calls := (line.get? 1).elim [] (fun t => [mapToken t])
  t_min := (line.get? 2).elim [] (fun t => [mapToken t])
  min_rank := (line.get? 3).elim [] (fun t => [mapToken t])
  t_avg := (line.get? 4).elim [] (fun t => [mapToken t])
  t_max := (line.get? 5).elim [] (fun t => [mapToken t])
  max_rank := (line.get? 6).elim [] (fun t => [mapToken t])
  total_min := (line.get? 7).elim [] (fun t => [mapToken t])
  total_min_rank := (line.get? 8).elim [] (fun t => [mapToken t])
  total_max := (line.get? 9).elim [] (fun t => [mapToken t])
  total_max_rank := (line.get? 10).elim [] (fun t => [mapToken t])
  total_avg := (line.get? 11).elim [] (fun t => [mapToken t])
  pe := (line.get? 12).elim [] (fun t => [mapToken t])

/-- Drop a literal pattern from the head of the input, returning the rest
on success. -/
def dropLit : List Char → List Char → Option (List Char)
  | [], l => some l
  | _ :: _, [] => none
  | p :: ps, c :: cs => if p = c then dropLit ps cs else none

/-- Tail of the header regex, `calls +t_min +min rank`, matched at the
head of the input: literal `calls`, one or more spaces, literal `t_min`,
one or more spaces, literal `min rank`.  The space runs are maximal
without loss: both `t_min` and `min rank` start with a non-space. -/
def matchCTM (l : List Char) : Bool :=
  match dropLit (toCh "calls") l with
  | none => false
  | some r =>
    match r with
    | ' ' :: _ =>
      match dropLit (toCh "t_min") (r.dropWhile (· = ' ')) with
      | none => false
      | some r2 =>
        match r2 with
        | ' ' :: _ =>
          (dropLit (toCh "min rank") (r2.dropWhile (· = ' '))).isSome
        | _ => false
    | _ => false

/-- Scan every suffix reachable by `.*` (which cannot cross a newline)
for a position where `p` holds. -/
def searchFromGap (p : List Char → Bool) : List Char → Bool
  | [] => p []
  | c :: t => p (c :: t) || (c ≠ '\n' && searchFromGap p t)

/-- Scan every suffix (the implicit arbitrary prefix of `re.search`) for a
position where `p` holds. -/
def searchAt (p : List Char → Bool) : List Char → Bool
  | [] => p []
  | c :: t => p (c :: t) || searchAt p t

/-- Embedding of `re.search(header_regex, e)` with
`header_regex = "name +.*calls +t_min +min rank.*"`: somewhere in the line,
literal `name`, at least one space, an arbitrary newline-free gap, then
`calls +t_min +min rank` (the trailing `.*` always matches). -/
def searchHeader (l : List Char) : Bool :=
  searchAt
    (fun s =>
      match dropLit (toCh "name") s with
      | none => false
      | some r =>
        match r with
        | ' ' :: r1 => searchFromGap matchCTM r1
        | _ => false)
    l

/-- Embedding of `re.search(r"-" * 165, e)`: the line contains a run of at
least 165 consecutive dashes.  `cnt` counts the dashes of the current
run. -/
def dashScan (cnt : ℕ) : List Char → Bool
  | [] => 165 ≤ cnt
  | c :: t =>
    if 165 ≤ cnt then true
    else if c = '-' then dashScan (cnt + 1) t else dashScan 0 t

/-- A line matches the footer pattern `r"-" * 165`. -/
def run165 (l : List Char) : Bool := dashScan 0 l

/-- Indices (starting at `n`) of the elements satisfying `p`: embedding of
`[i for i, e in enumerate(log_file) if <p e>]`. -/
def idxsFrom (p : List Char → Bool) (n : ℕ) : List (List Char) → List ℕ
  | [] => []
  | l :: ls => if p l then n :: idxsFrom p (n + 1) ls else idxsFrom p (n + 1) ls

/-- A line of a table body as stored in a `Table`: a raw string after
construction, a token row after `remove_formatting` has replaced it
(Python rebinds `table.lines` from strings to lists). -/
inductive PyLine where
  | str (s : List Char)
  | toks (ts : List (List Char))
deriving DecidableEq

/-- Embedding of the `Table` class (`mining_util.py:47`): the constructor
strips each line. -/
structure Table where
  lines : List PyLine
deriving DecidableEq

/-- Embedding of `Table(lines)` applied to raw line strings. -/
def mkTable (ls : List (List Char)) : Table :=
  ⟨ls.map (fun l => PyLine.str (pyStrip l))⟩

/-- Pairing loop of `isolate_table` (`mining_util.py:188-200`): for each
header index in order, `next((f for f in footer_lines if f > start), None)`
picks the first remaining footer beyond it; a matched footer is removed
(`footer_lines.remove(end)`), a header with no match produces nothing. -/
def pairLoop : List ℕ → List ℕ → List (ℕ × ℕ)
  | [], _ => []
  | h :: hs, fs =>
    match fs.find? (fun f => h < f) with
    | some f => (h, f) :: pairLoop hs (fs.erase f)
    | none => pairLoop hs fs

/-- Non-empty lines of the log text: embedding of
`[e for e in full_file.split("\n") if e]`. -/
def logLines (full : List Char) : List (List Char) :=
  (splitNl full).filter (fun e => !e.isEmpty)

/-- Header candidates: line indices matching the header regex
(`mining_util.py:169`). -/
def allHeaderIdxs (lines : List (List Char)) : List ℕ :=
  idxsFrom searchHeader 0 lines

/-- Retained headers: candidates whose processed line has 12 or more
tokens (`mining_util.py:171-176`). -/
def headerIdxs (lines : List (List Char)) : List ℕ :=
  (allHeaderIdxs lines).filter
    (fun i => 12 ≤ (process_line (lines.getD i [])).length)

/-- Footer lines: indices containing a 165-dash run (`mining_util.py:180`). -/
def footerIdxs (lines : List (List Char)) : List ℕ :=
  idxsFrom run165 0 lines

/-- Embedding of `isolate_table` (`mining_util.py:151`): split into
non-empty lines, find retained headers and footers, return `none` (Python
`None`) if either list is empty, else pair headers with footers and slice
each body from `start + 3` up to the footer (exclusive). -/
def isolate_table (full : List Char) : Option (List Table) :=
  let lines := logLines full
  let headers := headerIdxs lines
  let footers := footerIdxs lines
  if headers.isEmpty || footers.isEmpty then none
  else
    some
      ((pairLoop headers footers).map
        (fun p => mkTable ((lines.drop (p.1 + 3)).take (p.2 - (p.1 + 3)))))

/-- Embedding of `process_line(line)` as called dynamically inside
`remove_formatting`: on a string it tokenizes; on a token-list line (the
state left behind by a previous `remove_formatting` run) `re.sub` raises
`TypeError: expected string or bytes-like object`. -/
def process_line_py : PyLine → PyResult (List (List Char))
  | .str s => .ok (process_line s)
  | .toks _ => .exn .typeError

/-- Tokenize every line of a table (`[process_line(line) for line in
table.lines]`), propagating a raised `TypeError`. -/
def procLines : List PyLine → PyResult (List (List (List Char)))
  | [] => .ok []
  | l :: rest =>
    match process_line_py l with
    | .exn e => .exn e
    | .ok r =>
      match procLines rest with
      | .exn e => .exn e
      | .ok rs => .ok (r :: rs)

/-- The row filter of `remove_formatting`: keep token rows of length 13
or 12 (`mining_util.py:223`). -/
def keepRow (r : List (List Char)) : Bool :=
  r.length = 13 || r.length = 12

/-- Process one table: tokenize all lines, keep rows of length 13 or 12,
and rebind `table.lines` to the retained token rows. -/
def procTable (t : Table) : PyResult Table :=
  match procLines t.lines with
  | .exn e => .exn e
  | .ok pls => .ok ⟨(pls.filter keepRow).map PyLine.toks⟩

/-- Embedding of `remove_formatting` (`mining_util.py:204`): process each
table in order (the Python version mutates the tables in place and
returns the same list). -/
def remove_formatting : List Table → PyResult (List Table)
  | [] => .ok []
  | t :: ts =>
    match procTable t with
    | .exn e => .exn e
    | .ok t1 =>
      match remove_formatting ts with
      | .exn e => .exn e
      | .ok ts1 => .ok (t1 :: ts1)

/-- Token rows held by a list of normalized tables. -/
def normalizedRows (ts : List Table) : List (List (List Char)) :=
  ts.flatMap
    (fun t =>
      t.lines.filterMap
        (fun pl =>
          match pl with
          | .toks r => some r
          | .str _ => none))

/-- The pipeline named by the end-to-end claim: `isolate_table`, then
`remove_formatting`, then `line_to_dataclass` on each retained row (rows
whose mapping raises are skipped; no retained row does, since retained
rows have length 12 or 13). -/
def pipelineRecords (full : List Char) : List MatchResultsICON :=
  match isolate_table full with
  | none => []
  | some ts =>
    match remove_formatting ts with
    | .exn _ => []
    | .ok ts1 =>
      (normalizedRows ts1).filterMap
        (fun r =>
          match line_to_dataclass r with
          | .ok rec => some rec
          | .exn _ => none)

/-- The claim's reading of the pairing rule, written from the spec's
words: pair each retained header `h` with the nearest (i.e. minimal)
not-yet-used footer index strictly greater than `h`; a header with no such
footer produces no table; a matched footer is consumed. -/
def nearestAbove (h : ℕ) (fs : List ℕ) : Option ℕ :=
  match fs.filter (fun f => h < f) with
  | [] => none
  | x :: xs => some (xs.foldl min x)

/-- Spec-side pairing: same consumption discipline as the code's loop but
selecting the nearest qualifying footer rather than the first in list
order. -/
def specPair : List ℕ → List ℕ → List (ℕ × ℕ)
  | [], _ => []
  | h :: hs, fs =>
    match nearestAbove h fs with
    | some f => (h, f) :: specPair hs (fs.erase f)
    | none => specPair hs fs

/-- Python regex `\w` on the ASCII fragment. -/
def isWordChar (c : Char) : Bool := c.isAlpha || c.isDigit || c = '_'

/-- Match the date pattern
`\w{3} \d{2} \w{3} \d{4} \d{2}:\d{2}:\d{2} [APM]{2} \w{4}\b`
at the head of the input (the leading `\b` is checked by the caller);
returns the 32-character match and the rest. -/
def dateAt (l : List Char) : Option (List Char × List Char) :=
  match l with
  | a1 :: a2 :: a3 :: ' ' :: d1 :: d2 :: ' ' :: b1 :: b2 :: b3 :: ' ' ::
      y1 :: y2 :: y3 :: y4 :: ' ' :: h1 :: h2 :: ':' :: mi1 :: mi2 :: ':' ::
      s1 :: s2 :: ' ' :: p1 :: p2 :: ' ' :: z1 :: z2 :: z3 :: z4 :: rest =>
    if [a1, a2, a3].all isWordChar && [d1, d2].all Char.isDigit &&
        [b1, b2, b3].all isWordChar && [y1, y2, y3, y4].all Char.isDigit &&
        [h1, h2, mi1, mi2, s1, s2].all Char.isDigit &&
        [p1, p2].all (fun c => c = 'A' || c = 'P' || c = 'M') &&
        [z1, z2, z3, z4].all isWordChar &&
        !(rest.head?.elim false isWordChar) then
      some
        ([a1, a2, a3, ' ', d1, d2, ' ', b1, b2, b3, ' ', y1, y2, y3, y4, ' ',
          h1, h2, ':', mi1, mi2, ':', s1, s2, ' ', p1, p2, ' ',
          z1, z2, z3, z4], rest)
    else none
  | _ => none

/-- Left-to-right, non-overlapping scan of `re.findall(date_pattern, file)`.
The boolean records whether the previous character was a word character
(for the leading `\b`); the fuel bounds the number of scan steps (one per
loop iteration, each consuming at least one character, so input length is
always enough). -/
def findDatesAux : ℕ → Bool → List Char → List (List Char)
  | 0, _, _ => []
  | _ + 1, _, [] => []
  | fuel + 1, prevW, c :: t =>
    if !prevW then
      match dateAt (c :: t) with
      | some (m, rest) => m :: findDatesAux fuel true rest
      | none => findDatesAux fuel (isWordChar c) t
    else findDatesAux fuel (isWordChar c) t

/-- Embedding of `re.findall(date_pattern, file)`. -/
def findDates (file : List Char) : List (List Char) :=
  findDatesAux file.length false file

/-- Naive datetime as produced by `datetime.strptime` / `datetime.now()`
(`tzname` is the `%Z` text, empty for a naive `now()`). -/
structure PyDateTime where
  year : ℕ
  month : ℕ
  day : ℕ
  hour : ℕ
  minute : ℕ
  second : ℕ
  tzname : List Char
deriving DecidableEq

/-- Abbreviated month names of the C locale, for `%b`. -/
def monthAbbrs : List (List Char) :=
  [toCh "Jan", toCh "Feb", toCh "Mar", toCh "Apr", toCh "May", toCh "Jun",
   toCh "Jul", toCh "Aug", toCh "Sep", toCh "Oct", toCh "Nov", toCh "Dec"]

/-- Abbreviated weekday names of the C locale, for `%a` (index 0 is
Monday, as in `datetime.weekday()`). -/
def dayAbbrs : List (List Char) :=
  [toCh "Mon", toCh "Tue", toCh "Wed", toCh "Thu", toCh "Fri", toCh "Sat",
   toCh "Sun"]

/-- Gregorian leap year. -/
def isLeap (y : ℕ) : Bool := y % 4 = 0 && (y % 100 ≠ 0 || y % 400 = 0)

/-- Days in a month (1-based month). -/
def daysInMonth (y m : ℕ) : ℕ :=
  if m = 2 then (if isLeap y then 29 else 28)
  else if m = 4 || m = 6 || m = 9 || m = 11 then 30
  else 31

/-- Weekday of a Gregorian date by Zeller's congruence, 0 = Monday. -/
def weekdayIdx (y m d : ℕ) : ℕ :=
  let ym := if m ≤ 2 then y - 1 else y
  let mm := if m ≤ 2 then m + 12 else m
  let k := ym % 100
  let j := ym / 100
  ((d + 13 * (mm + 1) / 5 + k + k / 4 + j / 4 + 5 * j) % 7 + 5) % 7

/-- Two-digit value of a pair of digit characters. -/
def twoDigits (a b : Char) : ℕ := digitsToNat [a, b]

/-- Embedding of `datetime.strptime(date, "%a %d %b %Y %I:%M:%S %p %Z")`
applied to a string matched by the date pattern: validates the weekday and
month names, the 12-hour clock and AM/PM marker, and the field ranges, and
applies the AM/PM correction.  (Which `%Z` names are accepted by CPython
depends on the host timezone; the model accepts any, recording the text —
no claim depends on this branch.)  A parse failure is a `ValueError`. -/
def strptimeModel (s : List Char) : PyResult PyDateTime :=
  match s with
  | a1 :: a2 :: a3 :: ' ' :: d1 :: d2 :: ' ' :: b1 :: b2 :: b3 :: ' ' ::
      y1 :: y2 :: y3 :: y4 :: ' ' :: h1 :: h2 :: ':' :: mi1 :: mi2 :: ':' ::
      s1 :: s2 :: ' ' :: p1 :: p2 :: ' ' :: tz =>
    match (dayAbbrs.findIdx? (· = [a1, a2, a3])),
        (monthAbbrs.findIdx? (· = [b1, b2, b3])) with
    | some _, some mIdx =>
      let year := digitsToNat [y1, y2, y3, y4]
      let month := mIdx + 1
      let day := twoDigits d1 d2
      let hour12 := twoDigits h1 h2
      let minute := twoDigits mi1 mi2
      let second := twoDigits s1 s2
      if [d1, d2, y1, y2, y3, y4, h1, h2, mi1, mi2, s1, s2].all Char.isDigit &&
          1 ≤ day && day ≤ daysInMonth year month &&
          1 ≤ hour12 && hour12 ≤ 12 && minute ≤ 59 && second ≤ 61 &&
          ([p1, p2] = toCh "AM" || [p1, p2] = toCh "PM") then
        let hour :=
          if [p1, p2] = toCh "PM" then (if hour12 = 12 then 12 else hour12 + 12)
          else (if hour12 = 12 then 0 else hour12)
        .ok ⟨year, month, day, hour, minute, second, tz⟩
      else .exn .valueError
    | _, _ => .exn .valueError
  | _ => .exn .valueError

/-- Digits of `n`, left-padded with zeros to width `w`. -/
def padDigits (w n : ℕ) : List Char :=
  let ds := Nat.toDigits 10 n
  List.replicate (w - ds.length) '0' ++ ds

/-- Embedding of `datetime.strftime(now, "%a %d %b %Y %I:%M:%S %p %Z")`
(for a naive `datetime.now()` the `%Z` field is the empty string). -/
def strftimeModel (dt : PyDateTime) : List Char :=
  dayAbbrs.getD (weekdayIdx dt.year dt.month dt.day) [] ++ ' ' ::
    padDigits 2 dt.day ++ ' ' :: monthAbbrs.getD (dt.month - 1) [] ++ ' ' ::
    padDigits 4 dt.year ++ ' ' ::
    padDigits 2 (if dt.hour % 12 = 0 then 12 else dt.hour % 12) ++ ':' ::
    padDigits 2 dt.minute ++ ':' :: padDigits 2 dt.second ++ ' ' ::
    (if dt.hour < 12 then toCh "AM" else toCh "PM") ++ ' ' :: dt.tzname

/-- Dynamic result of `collect_time_stamp`: a list of datetimes on one
branch, a bare formatted string on the other. -/
inductive PyObj where
  | dtList (ds : List PyDateTime)
  | str (cs : List Char)
deriving DecidableEq

/-- The list comprehension `[datetime.strptime(date, date_format) for date
in dates]`, propagating a raised `ValueError`. -/
def parseAllDates : List (List Char) → PyResult (List PyDateTime)
  | [] => .ok []
  | d :: ds =>
    match strptimeModel d with
    | .exn e => .exn e
    | .ok dt =>
      match parseAllDates ds with
      | .exn e => .exn e
      | .ok dts => .ok (dt :: dts)

/-- Embedding of `collect_time_stamp` (`mining_util.py:233`): find all
date-pattern matches; if any, parse each with `strptime`; otherwise
return `datetime.strftime(now, date_format)` — a plain string, not a list
of datetimes.  `now` stands for `datetime.now()`. -/
def collect_time_stamp (file : List Char) (now : PyDateTime) : PyResult PyObj :=
  let dates := findDates file
  if !dates.isEmpty then
    match parseAllDates dates with
    | .exn e => .exn e
    | .ok dts => .ok (.dtList dts)
  else .ok (.str (strftimeModel now))

/-- Concrete instance of the end-to-end scenario: one header line matching
the header pattern with 13 tokens, three data rows of 13 tokens each, and
a 165-dash footer rule. -/
def headerC1 : List Char :=
  toCh "name x1 x2 x3 x4 x5 x6 x7 x8 calls t_min min rank"

/-- First data row of the scenario. -/
def rowC1a : List Char := toCh "n1 1 2 3 4 5 6 7 8 9 10 11 12"

/-- Second data row of the scenario. -/
def rowC1b : List Char := toCh "n2 1 2 3 4 5 6 7 8 9 10 11 12"

/-- Third data row of the scenario. -/
def rowC1c : List Char := toCh "n3 1 2 3 4 5 6 7 8 9 10 11 12"

/-- Footer rule line of 165 dashes. -/
def footerC1 : List Char := List.replicate 165 '-'

/-- The scenario text: header, three data rows, footer. -/
def textC1 : List Char :=
  headerC1 ++ '\n' :: (rowC1a ++ '\n' :: (rowC1b ++ '\n' ::
    (rowC1c ++ '\n' :: footerC1)))

/-- The single record the pipeline produces on `textC1` (from the third
data row; the first two rows are consumed as the fixed `h + 3` offset). -/
def recC1 : MatchResultsICON where
  name := [.s (toCh "n3")]
  calls := [.f (ofIntD 1)]
  t_min := [.f (ofIntD 2)]
  min_rank := [.f (ofIntD 3)]
  t_avg := [.f (ofIntD 4)]
  t_max := [.f (ofIntD 5)]
  max_rank := [.f (ofIntD 6)]
  total_min := [.f (ofIntD 7)]
  total_min_rank := [.f (ofIntD 8)]
  total_max := [.f (ofIntD 9)]
  total_max_rank := [.f (ofIntD 10)]
  total_avg := [.f (ofIntD 11)]
  pe := [.f (ofIntD 12)]

/-!
Concrete evaluations of the embedding, mirroring the repository's own
test vectors (`test_mining_util.py`) and the edge cases the claims turn on.
-/
example : process_line (toCh "some test content") =
    [toCh "some", toCh "test", toCh "content"] := by decide
example : process_line (toCh "some-test-content") =
    [toCh "some", toCh "test", toCh "content"] := by decide
example : process_line (toCh "some/test/content") =
    [toCh "some/test/content"] := by decide
example : process_line (toCh "Lsome test content") =
    [toCh "some", toCh "test", toCh "content"] := by decide
example : process_line (toCh "some tests content") =
    [toCh "some", toCh "tests", toCh "content"] := by decide
example : process_line (toCh "some 1m37s contents") =
    [toCh "some", toCh "1m37s", toCh "contents"] := by decide
example : process_line (toCh "a 2.0(s) b") = [toCh "a", toCh "b"] := by decide
example : process_line (toCh "-5.0") = [toCh "5.0"] := by decide

example : addD (mulD (ofIntD 15) (ofIntD 60)) (ofIntD 16) = ofIntD 916 := by
  decide

example : pyFloat (toCh "13") = some (ofIntD 13) := by decide
example : pyFloat (toCh "2.0") = some (ofIntD 2) := by decide
example : pyFloat (toCh "2.00") = some (ofIntD 2) := by decide
example : pyFloat (toCh "-5.0") = some (ofIntD (-5)) := by decide
example : pyFloat (toCh "-0.0") = some (ofIntD 0) := by decide
example : pyFloat (toCh ".5") = some ⟨5, 1⟩ := by decide
example : pyFloat (toCh "1.") = some (ofIntD 1) := by decide
example : pyFloat (toCh "1e2") = some (ofIntD 100) := by decide
example : pyFloat (toCh "1.5e-1") = some ⟨15, 2⟩ := by decide
example : pyFloat (toCh "name1") = none := by decide
example : pyFloat (toCh "") = none := by decide
example : pyFloat (toCh "1.2.3") = none := by decide
example : pyFloat (toCh " 7 ") = some (ofIntD 7) := by decide

example : searchMS (toCh "15m16s") = some (toCh "15", toCh "16") := by decide
example : searchMS (toCh "ab3m4s") = some (toCh "3", toCh "4") := by decide
example : searchMS (toCh "1m2m3s") = some (toCh "2", toCh "3") := by decide
example : searchMS (toCh "13") = none := by decide

example : mapToken (toCh "13s") = .f (ofIntD 13) := by decide
example : mapToken (toCh "15m16s") = .f (ofIntD 916) := by decide
example : mapToken (toCh "2.0s") = .f (ofIntD 2) := by decide
example : mapToken (toCh "name1") = .s (toCh "name1") := by decide
example : mapToken (toCh "0.0") = .i 0 := by decide
example : mapToken (toCh "-5.0") = .f (ofIntD 5) := by decide
example : mapToken (toCh "-0.0") = .i 0 := by decide
example : mapToken (toCh "19s") = .f (ofIntD 19) := by decide
example : mapToken (toCh "seconds") = .s (toCh "seconds") := by decide

example :
    line_to_dataclass
      [toCh "name1", toCh "1", toCh "2.0", toCh "3", toCh "4.0", toCh "5.0",
        toCh "6", toCh "7.0", toCh "8", toCh "9.0", toCh "10", toCh "11.0"] =
    .ok
      { name := [.s (toCh "name1")], calls := [.f (ofIntD 1)],
        t_min := [.f (ofIntD 2)], min_rank := [.f (ofIntD 3)],
        t_avg := [.f (ofIntD 4)], t_max := [.f (ofIntD 5)],
        max_rank := [.f (ofIntD 6)], total_min := [.f (ofIntD 7)],
        total_min_rank := [.f (ofIntD 8)], total_max := [.f (ofIntD 9)],
        total_max_rank := [.f (ofIntD 10)], total_avg := [.f (ofIntD 11)],
        pe := [] } := by decide

example :
    line_to_dataclass
      [toCh "name2", toCh "12", toCh "13s", toCh "14", toCh "15m16s",
        toCh "17.0", toCh "18", toCh "19s", toCh "20", toCh "21.0",
        toCh "22", toCh "23.0"] =
    .ok
      { name := [.s (toCh "name2")], calls := [.f (ofIntD 12)],
        t_min := [.f (ofIntD 13)], min_rank := [.f (ofIntD 14)],
        t_avg := [.f (ofIntD 916)], t_max := [.f (ofIntD 17)],
        max_rank := [.f (ofIntD 18)], total_min := [.f (ofIntD 19)],
        total_min_rank := [.f (ofIntD 20)], total_max := [.f (ofIntD 21)],
        total_max_rank := [.f (ofIntD 22)], total_avg := [.f (ofIntD 23)],
        pe := [] } := by decide

example :
    line_to_dataclass [toCh "1.0", toCh "0.0", toCh "2.0s"] =
    .ok
      { name := [.f (ofIntD 1)], calls := [.i 0], t_min := [.f (ofIntD 2)] } := by
  decide

example :
    line_to_dataclass (List.replicate 14 (toCh "x")) = .exn .indexError := by
  decide

example :
    searchHeader
      (toCh "name x1 x2 x3 x4 x5 x6 x7 x8 calls t_min  min rank etc") = true := by
  decide
example : searchHeader (toCh "n3 1 2 3") = false := by decide
example : searchHeader (toCh "name calls t_min min rank") = true := by decide
example : searchHeader (toCh "namecalls t_min min rank") = false := by decide

example : run165 (List.replicate 165 '-') = true := by decide
example : run165 (List.replicate 164 '-') = false := by decide
example : run165 ('x' :: List.replicate 165 '-' ++ toCh "y") = true := by decide

example : findDates (toCh "some test content") = [] := by decide
example : findDates (toCh "15/10/23 01:18:54") = [] := by decide
example :
    findDates (toCh "xx Sun 15 Oct 2023 01:18:54 PM CEST yy") =
      [toCh "Sun 15 Oct 2023 01:18:54 PM CEST"] := by decide

example :
    strptimeModel (toCh "Sun 15 Oct 2023 01:18:54 PM CEST") =
      .ok ⟨2023, 10, 15, 13, 18, 54, toCh "CEST"⟩ := by decide

example :
    strftimeModel ⟨2023, 10, 15, 13, 18, 54, toCh "CEST"⟩ =
      toCh "Sun 15 Oct 2023 01:18:54 PM CEST" := by decide

example :
    collect_time_stamp (toCh "Sun 15 Oct 2023 01:18:54 PM CEST")
        ⟨2026, 1, 2, 3, 4, 5, []⟩ =
      .ok (.dtList [⟨2023, 10, 15, 13, 18, 54, toCh "CEST"⟩]) := by decide
example :
    collect_time_stamp (toCh "some test content") ⟨2026, 1, 2, 3, 4, 5, []⟩ =
      .ok (.str (strftimeModel ⟨2026, 1, 2, 3, 4, 5, []⟩)) := by decide

example : searchHeader headerC1 = true := by decide
example : (process_line headerC1).length = 13 := by decide
example : run165 footerC1 = true := by decide
example :
    isolate_table textC1 = some [mkTable [rowC1c]] := by decide

example : pipelineRecords textC1 = [recC1] := by decide

/-- No piece produced by splitting on `'-'` contains a `'-'`. -/
theorem splitOnDash_no_dash (l : List Char) :
    ∀ p ∈ splitOnDash l, '-' ∉ p := by
  induction l with
  | nil =>
    intro p hp
    simp [splitOnDash] at hp
    simp [hp]
  | cons c rest ih =>
    intro p hp
    by_cases hc : c = '-'
    · simp [splitOnDash, hc] at hp
      rcases hp with hp | hp
      · simp [hp]
      · exact ih p hp
    · simp [splitOnDash, hc] at hp
      rcases hsp : splitOnDash rest with _ | ⟨t, ts⟩
      · rw [hsp] at hp
        simp at hp
        subst hp
        simp
        exact fun h => hc h.symm
      · rw [hsp] at hp
        simp at hp
        rcases hp with hp | hp
        · subst hp
          have ht : '-' ∉ t := by
            have := ih t (by rw [hsp]; exact List.mem_cons_self t ts)
            exact this
          simp [ht]
          exact fun h => hc h.symm
        · exact ih p (by rw [hsp]; exact List.mem_cons_of_mem t hp)

/-- Every token produced by `process_line` is a piece of the dash split,
hence contains no `'-'`. -/
theorem process_line_no_dash (line : List Char) :
    ∀ tok ∈ process_line line, '-' ∉ tok := by
  intro tok htok
  unfold process_line at htok
  have hmem := List.mem_of_mem_filter htok
  exact splitOnDash_no_dash _ tok hmem

/-- Normalization preserves a non-negative numerator. -/
theorem normDec_nonneg (n : ℤ) (e : ℕ) (hn : 0 ≤ n) :
    0 ≤ (normDec n e).num := by
  induction e generalizing n with
  | zero => simpa [normDec]
  | succ e ih =>
    unfold normDec
    by_cases h : n % 10 = 0
    · simpa [h] using ih (n / 10) (by positivity)
    · simpa [h]

/-- The numerator of `mkDec` has the sign of its argument. -/
theorem mkDec_nonneg (n : ℤ) (e : ℕ) (hn : 0 ≤ n) : 0 ≤ (mkDec n e).num :=
  normDec_nonneg n e hn

/-- An integer decimal keeps its sign. -/
theorem ofIntD_nonneg (n : ℤ) (hn : 0 ≤ n) : 0 ≤ (ofIntD n).num :=
  mkDec_nonneg n 0 hn

/-- Product of non-negative decimals is non-negative. -/
theorem mulD_nonneg (a b : Dec) (ha : 0 ≤ a.num) (hb : 0 ≤ b.num) :
    0 ≤ (mulD a b).num :=
  mkDec_nonneg _ _ (by positivity)

/-- Sum of non-negative decimals is non-negative. -/
theorem addD_nonneg (a b : Dec) (ha : 0 ≤ a.num) (hb : 0 ≤ b.num) :
    0 ≤ (addD a b).num :=
  mkDec_nonneg _ _ (by positivity)

/-- The unsigned literal parser only returns non-negative values. -/
theorem parseUnsigned_nonneg (s : List Char) (d : Dec)
    (h : parseUnsigned s = some d) : 0 ≤ d.num := by
  simp only [parseUnsigned] at h
  split at h
  · split at h
    · exact absurd h (by simp)
    · rcases Option.map_eq_some'.mp h with ⟨e, _, hd⟩
      subst hd
      unfold applyExpD
      split <;> exact mkDec_nonneg _ _ (by positivity)
  · split at h
    · exact absurd h (by simp)
    · rcases Option.map_eq_some'.mp h with ⟨e, _, hd⟩
      subst hd
      unfold applyExpD
      split <;> exact mkDec_nonneg _ _ (by positivity)

/-- Characters surviving `pyStrip` come from the original string. -/
theorem mem_of_mem_pyStrip {c : Char} {l : List Char} (h : c ∈ pyStrip l) :
    c ∈ l := by
  unfold pyStrip dropRightWhile at h
  have h1 := (List.dropWhile_sublist _).mem (List.mem_reverse.mp h)
  exact (List.dropWhile_sublist pyIsSpace).mem (List.mem_reverse.mp h1)

/-- Python `float` returns a non-negative value on any string that does
not contain a minus sign. -/
theorem pyFloat_nonneg (cs : List Char) (d : Dec) (hm : '-' ∉ cs)
    (h : pyFloat cs = some d) : 0 ≤ d.num := by
  simp only [pyFloat] at h
  split at h
  · exact parseUnsigned_nonneg _ _ h
  · rename_i heq
    exact absurd (mem_of_mem_pyStrip (heq ▸ List.mem_cons_self '-' _)) hm
  · exact parseUnsigned_nonneg _ _ h

/-- The duration step never creates a negative float from a token without
a minus sign (its digit-built values are non-negative, and a passed-through
string goes to `pyFloat`). -/
theorem durationStep_coerce_nonneg (tok : List Char) (d : Dec)
    (hm : '-' ∉ tok) (h : tryCoerce (durationStep tok) = some d) :
    0 ≤ d.num := by
  simp only [durationStep] at h
  split at h
  · split at h
    · simp only [tryCoerce] at h
      rcases hpf : pyFloat tok.dropLast with _ | d1
      · rw [hpf] at h
        simp only [Option.getD_none, Option.some.injEq] at h
        subst h
        decide
      · rw [hpf] at h
        simp only [Option.getD_some, Option.some.injEq] at h
        subst h
        exact pyFloat_nonneg _ _
          (fun hc => hm ((List.dropLast_sublist tok).mem hc)) hpf
    · split at h
      · simp only [tryCoerce, Option.some.injEq] at h
        subst h
        exact addD_nonneg _ _
          (mulD_nonneg _ _ (ofIntD_nonneg _ (by positivity))
            (ofIntD_nonneg _ (by norm_num)))
          (ofIntD_nonneg _ (by positivity))
      · simp only [tryCoerce] at h
        exact pyFloat_nonneg _ _ hm h
  · simp only [tryCoerce] at h
    exact pyFloat_nonneg _ _ hm h

/-- C4 counterexample: the token `2.0(s)` exactly matches
`<digits>[.<digits>](s)`, yet `process_line` does not leave it intact —
the output of tokenizing `"a 2.0(s) b"` is `["a", "b"]`, with the token
dropped. -/
theorem c4_counterexample :
    is_number_with_s (toCh "2.0(s)") = true ∧
    process_line (toCh "a 2.0(s) b") = [toCh "a", toCh "b"] ∧
    toCh "2.0(s)" ∉ process_line (toCh "a 2.0(s) b") := by decide

/-- C4 (amended): a token matching `<digits>[.<digits>](s)` is removed by
the tokenizer, not left intact: no token in any `process_line` output
matches `is_number_with_s` (the filter at `mining_util.py:142-146` drops
every element for which it holds). -/
theorem c4_amended (line tok : List Char) (h : tok ∈ process_line line) :
    is_number_with_s tok = false := by
  unfold process_line at h
  have hp := List.of_mem_filter h
  simp only [Bool.not_eq_eq_eq_not, Bool.not_true, Bool.or_eq_false_iff,
    decide_eq_false_iff_not] at hp
  exact hp.1.1.1

/-- C4 witness: a surviving token of a concrete line, with the amended
property discharged by the theorem. -/
theorem c4_witness :
    toCh "x" ∈ process_line (toCh "x 13") ∧
    is_number_with_s (toCh "x") = false :=
  ⟨by decide, c4_amended (toCh "x 13") (toCh "x") (by decide)⟩

/-- C10: no token produced by `process_line` contains a minus sign (every
whitespace run becomes `'-'` and the line is split on `'-'`), hence no
tokenizer-produced token can coerce to a negative number and the
absolute-value branch of `line_to_dataclass` is never triggered on such a
token (the normalization fixes the coerced value unchanged up to the zero
rule); in particular the cell `"-5.0"` reaches the row mapper as `"5.0"`. -/
theorem c10_no_minus_token :
    (∀ line tok, tok ∈ process_line line →
      '-' ∉ tok ∧
        ∀ d, tryCoerce (durationStep tok) = some d →
          ltZeroD d = false ∧
            mapToken tok = (if eqZeroD d then PyVal.i 0 else PyVal.f d)) ∧
    process_line (toCh "-5.0") = [toCh "5.0"] := by
  refine ⟨fun line tok htok => ?_, by decide⟩
  have hm : '-' ∉ tok := process_line_no_dash line tok htok
  refine ⟨hm, fun d hd => ?_⟩
  have hnn : 0 ≤ d.num := durationStep_coerce_nonneg tok d hm hd
  have hlt : ltZeroD d = false := by
    simp only [ltZeroD, decide_eq_false_iff_not, not_lt]
    exact hnn
  refine ⟨hlt, ?_⟩
  simp only [mapToken]
  rw [hd]
  simp only [normVal]
  rw [hlt]
  simp

/-- C10 witness: the tokenizer output of the line `"-5.0"` instantiates
the universal part of the theorem. -/
theorem c10_witness :
    toCh "5.0" ∈ process_line (toCh "-5.0") ∧
    '-' ∉ toCh "5.0" ∧
    ∀ d, tryCoerce (durationStep (toCh "5.0")) = some d →
      ltZeroD d = false ∧
        mapToken (toCh "5.0") = (if eqZeroD d then PyVal.i 0 else PyVal.f d) :=
  ⟨by decide, c10_no_minus_token.1 (toCh "-5.0") (toCh "5.0") (by decide)⟩

/-- On a row of at most 13 tokens the dataclass loop completes, producing
exactly the closed-form record `mkRec`. -/
theorem ldc_ok (line : List (List Char)) (h : line.length ≤ 13) :
    line_to_dataclass line = .ok (mkRec line) := by
  match line with
  | [] => rfl
  | [t0] => rfl
  | [t0, t1] => rfl
  | [t0, t1, t2] => rfl
  | [t0, t1, t2, t3] => rfl
  | [t0, t1, t2, t3, t4] => rfl
  | [t0, t1, t2, t3, t4, t5] => rfl
  | [t0, t1, t2, t3, t4, t5, t6] => rfl
  | [t0, t1, t2, t3, t4, t5, t6, t7] => rfl
  | [t0, t1, t2, t3, t4, t5, t6, t7, t8] => rfl
  | [t0, t1, t2, t3, t4, t5, t6, t7, t8, t9] => rfl
  | [t0, t1, t2, t3, t4, t5, t6, t7, t8, t9, t10] => rfl
  | [t0, t1, t2, t3, t4, t5, t6, t7, t8, t9, t10, t11] => rfl
  | [t0, t1, t2, t3, t4, t5, t6, t7, t8, t9, t10, t11, t12] => rfl
  | t0 :: t1 :: t2 :: t3 :: t4 :: t5 :: t6 :: t7 :: t8 :: t9 :: t10 ::
      t11 :: t12 :: t13 :: rest =>
    exact absurd h (by simp only [List.length_cons]; omega)

/-- On a row of 14 or more tokens the dataclass loop raises `IndexError`
at position 13. -/
theorem ldc_overflow (line : List (List Char)) (h : 13 < line.length) :
    line_to_dataclass line = .exn .indexError := by
  match line with
  | t0 :: t1 :: t2 :: t3 :: t4 :: t5 :: t6 :: t7 :: t8 :: t9 :: t10 ::
      t11 :: t12 :: t13 :: rest => rfl
  | [] | [t0] | [t0, t1] | [t0, t1, t2] | [t0, t1, t2, t3]
  | [t0, t1, t2, t3, t4] | [t0, t1, t2, t3, t4, t5]
  | [t0, t1, t2, t3, t4, t5, t6] | [t0, t1, t2, t3, t4, t5, t6, t7]
  | [t0, t1, t2, t3, t4, t5, t6, t7, t8]
  | [t0, t1, t2, t3, t4, t5, t6, t7, t8, t9]
  | [t0, t1, t2, t3, t4, t5, t6, t7, t8, t9, t10]
  | [t0, t1, t2, t3, t4, t5, t6, t7, t8, t9, t10, t11]
  | [t0, t1, t2, t3, t4, t5, t6, t7, t8, t9, t10, t11, t12] =>
    exact absurd h (by simp only [List.length_cons, List.length_nil]; omega)

/-- A token on which both coercions fail keeps its duration-step value
(the `except ValueError: pass` path). -/
theorem mapToken_text (tok : List Char)
    (h : tryCoerce (durationStep tok) = none) :
    mapToken tok = durationStep tok := by
  simp only [mapToken]
  rw [h]

/-- C3 counterexample: `line_to_dataclass` is not total — a 14-token row
raises `IndexError` — and a length-mismatched short row does not yield a
record with all fields empty: `["1.0", "2.0"]` populates `name` and
`calls`. -/
theorem c3_counterexample :
    line_to_dataclass (List.replicate 14 (toCh "x")) = .exn .indexError ∧
    line_to_dataclass [toCh "1.0", toCh "2.0"] =
      .ok ⟨[.f (ofIntD 1)], [.f (ofIntD 2)], [], [], [], [], [], [], [], [],
        [], [], []⟩ ∧
    (⟨[.f (ofIntD 1)], [.f (ofIntD 2)], [], [], [], [], [], [], [], [],
        [], [], []⟩ : MatchResultsICON) ≠
      ⟨[], [], [], [], [], [], [], [], [], [], [], [], []⟩ := by decide

/-- C3 (amended): `line_to_dataclass` returns without raising exactly on
rows of at most 13 tokens, where field `i` receives the mapped `i`-th
token (so a short row populates only its first `len` fields and the empty
row yields a record with all fields empty); a row of 14 or more tokens
raises `IndexError`.  Tokens on which both coercions fail are retained as
produced by the duration step (as text, when that step also passed them
through). -/
theorem c3_amended (line : List (List Char)) :
    (line.length ≤ 13 → line_to_dataclass line = .ok (mkRec line)) ∧
    (13 < line.length → line_to_dataclass line = .exn .indexError) ∧
    (∀ tok, tryCoerce (durationStep tok) = none →
      mapToken tok = durationStep tok) ∧
    line_to_dataclass [] =
      .ok ⟨[], [], [], [], [], [], [], [], [], [], [], [], []⟩ :=
  ⟨ldc_ok line, ldc_overflow line, mapToken_text, rfl⟩

/-- C3 witness: the amended theorem applied at a 14-token row and at a
2-token row. -/
theorem c3_witness :
    line_to_dataclass (List.replicate 14 (toCh "x")) = .exn .indexError ∧
    line_to_dataclass [toCh "1.0", toCh "2.0"] =
      .ok (mkRec [toCh "1.0", toCh "2.0"]) :=
  ⟨(c3_amended (List.replicate 14 (toCh "x"))).2.1 (by decide),
    (c3_amended [toCh "1.0", toCh "2.0"]).1 (by decide)⟩

/-- C9 counterexample: a numeric first token is coerced, so the `name`
field can hold a float — mapping the row `["1.0"]` stores `1.0` (exactly
the behaviour the repository's own test
`test_line_to_dataclass` with `["1.0", "0.0", "2.0s"]` expects). -/
theorem c9_counterexample :
    line_to_dataclass [toCh "1.0"] =
      .ok ⟨[.f (ofIntD 1)], [], [], [], [], [], [], [], [], [], [], [],
        []⟩ := by decide

/-- C9 (amended): `line_to_dataclass` applies the same coercion to
position 0 as to every other position; the `name` field is textual exactly
when coercion fails on the first token — for any row whose first token is
left by the duration step and rejected by `float`, the `name` field holds
that token as text. -/
theorem c9_amended (line : List (List Char)) (tok : List Char)
    (h0 : line.head? = some tok) (hl : line.length ≤ 13)
    (hd : durationStep tok = .s tok) (hf : pyFloat tok = none) :
    line_to_dataclass line = .ok (mkRec line) ∧
    (mkRec line).name = [.s tok] := by
  refine ⟨ldc_ok line hl, ?_⟩
  match line, h0 with
  | t :: rest, h0 =>
    simp only [List.head?] at h0
    cases h0
    have hmt : mapToken tok = .s tok := by
      have : tryCoerce (durationStep tok) = none := by
        rw [hd]
        simpa [tryCoerce]
      rw [mapToken_text tok this, hd]
    simp only [mkRec, List.get?, Option.elim, hmt]

/-- C9 witness: the amended theorem applied to the row `["abc"]`. -/
theorem c9_witness :
    ([toCh "abc"] : List (List Char)).head? = some (toCh "abc") ∧
    durationStep (toCh "abc") = .s (toCh "abc") ∧
    pyFloat (toCh "abc") = none ∧
    line_to_dataclass [toCh "abc"] = .ok (mkRec [toCh "abc"]) ∧
    (mkRec [toCh "abc"]).name = [.s (toCh "abc")] := by
  refine ⟨rfl, by decide, by decide, ?_, ?_⟩
  · exact (c9_amended [toCh "abc"] (toCh "abc") rfl (by decide) (by decide)
      (by decide)).1
  · exact (c9_amended [toCh "abc"] (toCh "abc") rfl (by decide) (by decide)
      (by decide)).2

/-- C8: whenever a token is successfully coerced to a number `d`, the
normalization of `line_to_dataclass` replaces a negative value by its
absolute value (numerator negated), represents a value exactly equal to
zero (`0.0` as well as `-0.0`, which the model already identifies with
`0.0`, as Python float equality does) as the integer `0`, and leaves a
positive value unchanged as a float. -/
theorem c8_sign_zero (tok : List Char) (d : Dec)
    (h : tryCoerce (durationStep tok) = some d) :
    (d.num < 0 → mapToken tok = .f (negD d)) ∧
    (d.num = 0 → mapToken tok = .i 0) ∧
    (0 < d.num → mapToken tok = .f d) := by
  have hm : mapToken tok = normVal d := by
    simp only [mapToken]
    rw [h]
  refine ⟨fun hn => ?_, fun hn => ?_, fun hn => ?_⟩
  · have hlt : ltZeroD d = true := by simp [ltZeroD, hn]
    have hez : eqZeroD (negD d) = false := by
      simp only [eqZeroD, negD, decide_eq_false_iff_not]
      omega
    rw [hm]
    simp only [normVal, hlt, if_true, hez]
    simp
  · have hlt : ltZeroD d = false := by
      simp only [ltZeroD, decide_eq_false_iff_not]
      omega
    have hez : eqZeroD d = true := by simp [eqZeroD, hn]
    rw [hm]
    simp only [normVal, hlt, hez]
    simp [hez]
  · have hlt : ltZeroD d = false := by
      simp only [ltZeroD, decide_eq_false_iff_not]
      omega
    have hez : eqZeroD d = false := by
      simp only [eqZeroD, decide_eq_false_iff_not]
      omega
    rw [hm]
    simp only [normVal, hlt, hez]
    simp [hez]

/-- C8 witness: the normalization theorem applied to the coerced tokens
`"-5.0"`, `"-0.0"` and `"0.0"`. -/
theorem c8_witness :
    mapToken (toCh "-5.0") = .f (ofIntD 5) ∧
    mapToken (toCh "-0.0") = .i 0 ∧
    mapToken (toCh "0.0") = .i 0 := by
  refine ⟨?_, ?_, ?_⟩
  · rw [(c8_sign_zero (toCh "-5.0") (ofIntD (-5)) (by decide)).1 (by decide)]
    decide
  · exact (c8_sign_zero (toCh "-0.0") (ofIntD 0) (by decide)).2.1 (by decide)
  · exact (c8_sign_zero (toCh "0.0") (ofIntD 0) (by decide)).2.1 (by decide)

/-- C7: on any text with no date-pattern match, `collect_time_stamp`
returns the `strftime`-formatted current time — a plain string, not a
sequence of datetimes — contradicting its own annotation and docstring
(`-> List[datetime]`); the claim's documented fallback (the current time
as the sole element of a datetime sequence) is what the code was meant to
produce. -/
theorem c7_fallback_returns_str (file : List Char) (now : PyDateTime)
    (h : findDates file = []) :
    collect_time_stamp file now = .ok (.str (strftimeModel now)) ∧
    ∀ ds, collect_time_stamp file now ≠ .ok (.dtList ds) := by
  have h1 : collect_time_stamp file now = .ok (.str (strftimeModel now)) := by
    simp only [collect_time_stamp]
    rw [h]
    simp
  exact ⟨h1, fun ds hds => by rw [h1] at hds; simp at hds⟩

/-- C7 witness: the fallback theorem applied to the dateless text
`"some test content"` (the input of the repository's own timestamp test)
at an arbitrary concrete `now`. -/
theorem c7_witness :
    findDates (toCh "some test content") = [] ∧
    collect_time_stamp (toCh "some test content")
        ⟨2023, 10, 15, 13, 18, 54, []⟩ =
      .ok (.str (strftimeModel ⟨2023, 10, 15, 13, 18, 54, []⟩)) ∧
    ∀ ds,
      collect_time_stamp (toCh "some test content")
          ⟨2023, 10, 15, 13, 18, 54, []⟩ ≠
        .ok (.dtList ds) := by
  refine ⟨by decide, ?_, ?_⟩
  · exact (c7_fallback_returns_str (toCh "some test content")
      ⟨2023, 10, 15, 13, 18, 54, []⟩ (by decide)).1
  · exact (c7_fallback_returns_str (toCh "some test content")
      ⟨2023, 10, 15, 13, 18, 54, []⟩ (by decide)).2

/-- A digit character is not Python whitespace. -/
theorem isDigit_not_space (c : Char) (h : c.isDigit = true) :
    pyIsSpace c = false := by
  by_contra hs
  rw [Bool.not_eq_false] at hs
  simp only [pyIsSpace, Bool.or_eq_true, decide_eq_true_eq] at hs
  rcases hs with ((((h1 | h1) | h1) | h1) | h1) | h1 <;>
    (subst h1; exact absurd h (by decide))

/-- Dropping while a predicate holds is the identity when no element satisfies it. -/
theorem dropWhile_eq_self_of_all (p : Char → Bool) (l : List Char)
    (h : ∀ c ∈ l, p c = false) : l.dropWhile p = l := by
  cases l with
  | nil => rfl
  | cons c t =>
    rw [List.dropWhile_cons_of_neg]
    simp [h c (List.mem_cons_self c t)]

/-- Stripping is the identity on strings without whitespace. -/
theorem pyStrip_eq_self (l : List Char) (h : ∀ c ∈ l, pyIsSpace c = false) :
    pyStrip l = l := by
  unfold pyStrip dropRightWhile
  rw [dropWhile_eq_self_of_all _ _ h]
  rw [dropWhile_eq_self_of_all _ _ (fun c hc => h c (List.mem_reverse.mp hc))]
  exact List.reverse_reverse l

/-- Removing the first dot is the identity on strings without a dot. -/
theorem replaceDotOnce_of_not_mem (l : List Char) (h : '.' ∉ l) :
    replaceDotOnce l = l := by
  induction l with
  | nil => rfl
  | cons c t ih =>
    have hc : c ≠ '.' := fun hc => h (hc ▸ List.mem_cons_self c t)
    simp only [replaceDotOnce, if_neg hc]
    rw [ih (fun hm => h (List.mem_cons_of_mem c hm))]

/-- Removing the first dot removes exactly the first dot occurrence. -/
theorem replaceDotOnce_append (pre post : List Char) (h : '.' ∉ pre) :
    replaceDotOnce (pre ++ '.' :: post) = pre ++ post := by
  induction pre with
  | nil => simp [replaceDotOnce]
  | cons c t ih =>
    have hc : c ≠ '.' := fun hc => h (hc ▸ List.mem_cons_self c t)
    have ht : '.' ∉ t := fun hm => h (List.mem_cons_of_mem c hm)
    simp only [List.cons_append, replaceDotOnce, if_neg hc]
    rw [show List.append t ('.' :: post) = t ++ '.' :: post from rfl, ih ht]

/-- Split a string at its first dot. -/
theorem exists_first_dot (l : List Char) (h : '.' ∈ l) :
    ∃ pre post, l = pre ++ '.' :: post ∧ '.' ∉ pre := by
  induction l with
  | nil => cases h
  | cons c t ih =>
    by_cases hc : c = '.'
    · exact ⟨[], t, by simp [hc], by simp⟩
    · have hm : '.' ∈ t := by
        rcases List.mem_cons.mp h with h1 | h1
        · exact absurd h1.symm hc
        · exact h1
      rcases ih hm with ⟨pre, post, heq, hpre⟩
      refine ⟨c :: pre, post, by simp [heq], ?_⟩
      intro h1
      rcases List.mem_cons.mp h1 with h2 | h2
      · exact hc h2.symm
      · exact hpre h2

/-- Characters kept by `replaceDotOnce` other than the removed dot. -/
theorem mem_replaceDotOnce (l : List Char) (c : Char) (hc : c ≠ '.')
    (h : c ∈ l) : c ∈ replaceDotOnce l := by
  induction l with
  | nil => cases h
  | cons x t ih =>
    by_cases hx : x = '.'
    · subst hx
      simp only [replaceDotOnce, if_pos rfl]
      rcases List.mem_cons.mp h with h1 | h1
      · exact absurd h1 hc
      · exact h1
    · simp only [replaceDotOnce, if_neg hx]
      rcases List.mem_cons.mp h with h1 | h1
      · exact h1 ▸ List.mem_cons_self x _
      · exact List.mem_cons_of_mem x (ih h1)

/-- The digit test in characterized form. -/
theorem pyIsDigitStr_iff (l : List Char) :
    pyIsDigitStr l = true ↔ l ≠ [] ∧ ∀ c ∈ l, c.isDigit = true := by
  cases l with
  | nil => simp [pyIsDigitStr]
  | cons c t => simp [pyIsDigitStr]

/-- Taking while a predicate holds collects exactly a leading all-true block. -/
theorem takeWhile_append_of_all (p : Char → Bool) (a : List Char) (x : Char)
    (y : List Char) (ha : ∀ c ∈ a, p c = true) (hx : p x = false) :
    (a ++ x :: y).takeWhile p = a := by
  induction a with
  | nil => simp [List.takeWhile_cons_of_neg, hx]
  | cons c t ih =>
    simp only [List.cons_append]
    rw [List.takeWhile_cons_of_pos (ha c (List.mem_cons_self c t))]
    rw [ih (fun z hz => ha z (List.mem_cons_of_mem c hz))]

/-- Evaluation of `parseUnsigned` on a pure digit string. -/
theorem parseUnsigned_digits (l : List Char) (hl : l ≠ [])
    (hd : ∀ c ∈ l, c.isDigit = true) :
    parseUnsigned l = some (applyExpD (digitsToNat l) 0 0) := by
  simp only [parseUnsigned]
  rw [List.takeWhile_eq_self_iff.mpr hd, List.drop_length]
  have hne : l.isEmpty = false := by
    cases l with
    | nil => exact absurd rfl hl
    | cons c t => rfl
  simp [hne, parseExp]

/-- Evaluation of `parseUnsigned` on a digits-dot-digits string. -/
theorem parseUnsigned_dotted (pre post : List Char)
    (hpre : ∀ c ∈ pre, c.isDigit = true)
    (hpost : ∀ c ∈ post, c.isDigit = true) (hne : pre ++ post ≠ []) :
    parseUnsigned (pre ++ '.' :: post) =
      some
        (applyExpD (digitsToNat pre * 10 ^ post.length + digitsToNat post)
          post.length 0) := by
  simp only [parseUnsigned]
  rw [takeWhile_append_of_all _ pre '.' post hpre (by decide)]
  rw [List.drop_left pre ('.' :: post)]
  split
  · rename_i r2 heq
    injection heq with _ hr2
    subst hr2
    rw [List.takeWhile_eq_self_iff.mpr hpost, List.drop_length]
    have hcond : (pre.isEmpty && post.isEmpty) = false := by
      cases pre with
      | nil =>
        cases post with
        | nil => exact absurd rfl hne
        | cons c t => rfl
      | cons c t => rfl
    simp [hcond, parseExp]
  · rename_i hmiss
    exact absurd rfl (hmiss post)

/-- Python `float` falls through to `parseUnsigned` when the stripped string
does not start with a sign. -/
theorem pyFloat_eq_parseUnsigned (cs : List Char) (hs : pyStrip cs = cs)
    (hd : ∀ c, cs.head? = some c → c ≠ '+' ∧ c ≠ '-') :
    pyFloat cs = parseUnsigned cs := by
  unfold pyFloat
  rw [hs]
  cases cs with
  | nil => rfl
  | cons c t =>
    obtain ⟨h1, h2⟩ := hd c rfl
    split
    · rename_i rest heq
      injection heq with hc _
      exact absurd hc h1
    · rename_i rest heq
      injection heq with hc _
      exact absurd hc h2
    · rfl

/-- The digit test of `line_to_dataclass` guarantees that Python `float`
succeeds on the remainder: a string that is non-empty and all digits after
removing one optional dot is a valid float literal. -/
theorem pyFloat_isSome_of_digitTest (rem : List Char)
    (h : pyIsDigitStr (replaceDotOnce rem) = true) :
    ∃ d, pyFloat rem = some d := by
  obtain ⟨hne, hall⟩ := (pyIsDigitStr_iff _).mp h
  by_cases hdot : '.' ∈ rem
  · rcases exists_first_dot rem hdot with ⟨pre, post, rfl, hpre⟩
    rw [replaceDotOnce_append pre post hpre] at hne hall
    have hpred : ∀ c ∈ pre, c.isDigit = true :=
      fun c hc => hall c (List.mem_append_left _ hc)
    have hpostd : ∀ c ∈ post, c.isDigit = true :=
      fun c hc => hall c (List.mem_append_right _ hc)
    have hstrip : pyStrip (pre ++ '.' :: post) = pre ++ '.' :: post := by
      refine pyStrip_eq_self _ (fun c hc => ?_)
      rcases List.mem_append.mp hc with h1 | h1
      · exact isDigit_not_space c (hpred c h1)
      · rcases List.mem_cons.mp h1 with h2 | h2
        · subst h2; decide
        · exact isDigit_not_space c (hpostd c h2)
    have hhead : ∀ c, (pre ++ '.' :: post).head? = some c → c ≠ '+' ∧ c ≠ '-' := by
      intro c hc
      cases pre with
      | nil =>
        simp only [List.nil_append, List.head?] at hc
        cases hc
        exact ⟨by decide, by decide⟩
      | cons x t =>
        simp only [List.cons_append, List.head?] at hc
        injection hc with hxc
        subst hxc
        have hd := hpred x (List.mem_cons_self x t)
        exact ⟨fun h1 => by subst h1; exact absurd hd (by decide),
          fun h1 => by subst h1; exact absurd hd (by decide)⟩
    rw [pyFloat_eq_parseUnsigned _ hstrip hhead,
      parseUnsigned_dotted pre post hpred hpostd hne]
    exact ⟨_, rfl⟩
  · rw [replaceDotOnce_of_not_mem rem hdot] at hne hall
    have hstrip : pyStrip rem = rem :=
      pyStrip_eq_self _ (fun c hc => isDigit_not_space c (hall c hc))
    have hhead : ∀ c, rem.head? = some c → c ≠ '+' ∧ c ≠ '-' := by
      intro c hc
      cases rem with
      | nil => cases hc
      | cons x t =>
        simp only [List.head?] at hc
        injection hc with hxc
        subst hxc
        have hd := hall x (List.mem_cons_self x t)
        exact ⟨fun h1 => by subst h1; exact absurd hd (by decide),
          fun h1 => by subst h1; exact absurd hd (by decide)⟩
    rw [pyFloat_eq_parseUnsigned _ hstrip hhead,
      parseUnsigned_digits rem hne hall]
    exact ⟨_, rfl⟩

/-- The `(\d+)m(\d+)s` pattern matches at the head of
`digits ++ m ++ digits ++ s ++ tail` with exactly the two digit groups
(greedy digit runs stop at `'m'` and `'s'`, which are not digits). -/
theorem msAt_full (a b tail : List Char) (ha : a ≠ []) (hb : b ≠ [])
    (hda : ∀ c ∈ a, c.isDigit = true) (hdb : ∀ c ∈ b, c.isDigit = true) :
    msAt (a ++ 'm' :: (b ++ 's' :: tail)) = some (a, b) := by
  have hae : a.isEmpty = false := by
    cases a with
    | nil => exact absurd rfl ha
    | cons c t => rfl
  have hbe : b.isEmpty = false := by
    cases b with
    | nil => exact absurd rfl hb
    | cons c t => rfl
  simp only [msAt]
  rw [takeWhile_append_of_all _ a 'm' _ hda (by decide)]
  rw [List.drop_left a ('m' :: (b ++ 's' :: tail))]
  split
  · rename_i r2 heq
    injection heq with _ hr2
    subst hr2
    rw [takeWhile_append_of_all _ b 's' tail hdb (by decide)]
    rw [List.drop_left b ('s' :: tail)]
    simp [hae, hbe]
  · rename_i hmiss
    exact absurd rfl (hmiss (b ++ 's' :: tail))

/-- The scan `searchMS` succeeds immediately when the pattern matches at the
head. -/
theorem searchMS_of_msAt (c : Char) (t : List Char)
    (r : List Char × List Char) (h : msAt (c :: t) = some r) :
    searchMS (c :: t) = some r := by
  unfold searchMS
  rw [h]

/-- C2: for a token ending in the duration suffix `s`, if the remainder
passes the code's decimal test then the token maps to the float value of
the remainder (the test guarantees the `float` call succeeds); otherwise a
token of the exact composite shape `<int>m<int>s` maps to
`minutes * 60 + seconds` as a float. -/
theorem c2_duration_rules (rem : List Char) :
    (pyIsDigitStr (replaceDotOnce rem) = true →
      ∃ d, pyFloat rem = some d ∧ durationStep (rem ++ ['s']) = .f d) ∧
    (∀ a b, rem = a ++ 'm' :: b → a ≠ [] → b ≠ [] →
      (∀ c ∈ a, c.isDigit = true) → (∀ c ∈ b, c.isDigit = true) →
      durationStep (rem ++ ['s']) =
        .f (addD (mulD (ofIntD (digitsToNat a)) (ofIntD 60))
            (ofIntD (digitsToNat b)))) := by
  constructor
  · intro h
    obtain ⟨d, hd⟩ := pyFloat_isSome_of_digitTest rem h
    refine ⟨d, hd, ?_⟩
    simp [durationStep, List.getLast?_concat, List.dropLast_concat, h, hd]
  · intro a b hab ha hb hda hdb
    subst hab
    have hm : pyIsDigitStr (replaceDotOnce (a ++ 'm' :: b)) = false := by
      cases hv : pyIsDigitStr (replaceDotOnce (a ++ 'm' :: b)) with
      | false => rfl
      | true =>
        have hmm :=
          ((pyIsDigitStr_iff _).mp hv).2 'm'
            (mem_replaceDotOnce _ 'm' (by decide)
              (List.mem_append_right a (List.mem_cons_self 'm' b)))
        exact absurd hmm (by decide)
    have hshape :
        (a ++ 'm' :: b) ++ ['s'] = a ++ 'm' :: (b ++ 's' :: ([] : List Char)) := by
      simp
    have hsearch : searchMS ((a ++ 'm' :: b) ++ ['s']) = some (a, b) := by
      rw [hshape]
      cases a with
      | nil => exact absurd rfl ha
      | cons c t =>
        exact searchMS_of_msAt c (t ++ 'm' :: (b ++ 's' :: []))
          (c :: t, b)
          (msAt_full (c :: t) b [] (by simp) hb hda hdb)
    simp only [durationStep]
    rw [List.getLast?_concat, if_pos rfl, List.dropLast_concat, hm,
      if_neg (by simp), hsearch]

/-- C2 witness: the duration rules applied to the tokens `"13s"`,
`"2.0s"` and `"15m16s"` (whose composite value is 916.0). -/
theorem c2_witness :
    pyIsDigitStr (replaceDotOnce (toCh "13")) = true ∧
    (∃ d, pyFloat (toCh "13") = some d ∧
      durationStep (toCh "13" ++ ['s']) = .f d) ∧
    pyIsDigitStr (replaceDotOnce (toCh "2.0")) = true ∧
    (∃ d, pyFloat (toCh "2.0") = some d ∧
      durationStep (toCh "2.0" ++ ['s']) = .f d) ∧
    durationStep (toCh "15m16" ++ ['s']) =
      .f (addD (mulD (ofIntD (digitsToNat (toCh "15"))) (ofIntD 60))
          (ofIntD (digitsToNat (toCh "16")))) ∧
    addD (mulD (ofIntD (digitsToNat (toCh "15"))) (ofIntD 60))
        (ofIntD (digitsToNat (toCh "16"))) = ofIntD 916 :=
  ⟨by decide, (c2_duration_rules (toCh "13")).1 (by decide), by decide,
    (c2_duration_rules (toCh "2.0")).1 (by decide),
    (c2_duration_rules (toCh "15m16")).2 (toCh "15") (toCh "16") (by decide)
      (by decide) (by decide) (by decide) (by decide),
    by decide⟩

/-- After a successful `remove_formatting`, every line of every table is a
token row (`Table.lines` has been rebound from strings to lists). -/
theorem remove_formatting_ok_toks (ts ts' : List Table)
    (h : remove_formatting ts = .ok ts') :
    ∀ t ∈ ts', ∀ pl ∈ t.lines, ∃ r, pl = PyLine.toks r := by
  induction ts generalizing ts' with
  | nil =>
    simp only [remove_formatting] at h
    cases h
    intro t ht
    cases ht
  | cons t rest ih =>
    simp only [remove_formatting] at h
    rcases hpt : procTable t with t1 | e
    all_goals rw [hpt] at h
    · rcases hrf : remove_formatting rest with rs | e
      all_goals rw [hrf] at h
      · cases h
        intro t' ht' pl hpl
        rcases List.mem_cons.mp ht' with h1 | h1
        · subst h1
          simp only [procTable] at hpt
          rcases hpl2 : procLines t.lines with pls | e
          all_goals rw [hpl2] at hpt
          · cases hpt
            rcases List.mem_map.mp hpl with ⟨r, _, hr⟩
            exact ⟨r, hr.symm⟩
          · cases hpt
        · exact ih rs hrf t' h1 pl hpl
      · cases h
    · cases h

/-- Embedded `remove_formatting` is the identity on a list of empty tables. -/
theorem remove_formatting_empty_tables (ts : List Table)
    (h : ∀ t ∈ ts, t.lines = []) : remove_formatting ts = .ok ts := by
  induction ts with
  | nil => rfl
  | cons t rest ih =>
    have ht : t = ⟨[]⟩ := by
      cases t with
      | mk ls =>
        have := h ⟨ls⟩ (List.mem_cons_self _ _)
        simp only at this
        rw [this]
    subst ht
    simp only [remove_formatting, procTable, procLines]
    rw [ih (fun t' ht' => h t' (List.mem_cons_of_mem _ ht'))]
    rfl

/-- Re-running `remove_formatting` on token-row tables raises `TypeError`
as soon as some table has a retained row (`process_line`'s `re.sub` is
applied to a list). -/
theorem remove_formatting_toks_error (ts : List Table)
    (htoks : ∀ t ∈ ts, ∀ pl ∈ t.lines, ∃ r, pl = PyLine.toks r)
    (hne : ∃ t ∈ ts, t.lines ≠ []) :
    remove_formatting ts = .exn .typeError := by
  induction ts with
  | nil =>
    rcases hne with ⟨t, ht, _⟩
    cases ht
  | cons t rest ih =>
    rcases hl : t.lines with _ | ⟨pl, pls⟩
    · have ht : t = ⟨[]⟩ := by
        cases t with
        | mk ls => simp only at hl; rw [hl]
      subst ht
      have hrest : ∃ t ∈ rest, t.lines ≠ [] := by
        rcases hne with ⟨t', ht', hne'⟩
        rcases List.mem_cons.mp ht' with h1 | h1
        · subst h1
          exact absurd rfl hne'
        · exact ⟨t', h1, hne'⟩
      simp only [remove_formatting, procTable, procLines]
      rw [ih (fun t' ht' => htoks t' (List.mem_cons_of_mem _ ht')) hrest]
    · rcases htoks t (List.mem_cons_self _ _) pl
        (by rw [hl]; exact List.mem_cons_self _ _) with ⟨r, hr⟩
      simp only [remove_formatting, procTable, hl, hr, procLines,
        process_line_py]

/-- C6 counterexample: normalizing a one-row table of 12 tokens succeeds,
but re-running `remove_formatting` on the already-normalized result is not
a no-op — it raises `TypeError`, because the retained rows are now token
lists, not strings. -/
theorem c6_counterexample :
    remove_formatting [mkTable [toCh "a b c d e f g h i j k l"]] =
      .ok [⟨[PyLine.toks [toCh "a", toCh "b", toCh "c", toCh "d", toCh "e",
        toCh "f", toCh "g", toCh "h", toCh "i", toCh "j", toCh "k",
        toCh "l"]]⟩] ∧
    remove_formatting
        [⟨[PyLine.toks [toCh "a", toCh "b", toCh "c", toCh "d", toCh "e",
          toCh "f", toCh "g", toCh "h", toCh "i", toCh "j", toCh "k",
          toCh "l"]]⟩] =
      .exn .typeError := by decide

/-- C6 (amended): re-running `remove_formatting` on an already-normalized
table list is a no-op only when every normalized table is empty; as soon
as some table retains a row, the second run raises `TypeError`, since
normalization rebinds each table's lines to token lists, which
`process_line`'s `re.sub` rejects. -/
theorem c6_amended (ts ts' : List Table)
    (h : remove_formatting ts = .ok ts') :
    ((∀ t ∈ ts', t.lines = []) → remove_formatting ts' = .ok ts') ∧
    ((∃ t ∈ ts', t.lines ≠ []) → remove_formatting ts' = .exn .typeError) :=
  ⟨fun he => remove_formatting_empty_tables ts' he,
    fun hne =>
      remove_formatting_toks_error ts' (remove_formatting_ok_toks ts ts' h)
        hne⟩

/-- C6 witness: the amended theorem applied to the concrete normalized
table of the counterexample. -/
theorem c6_witness :
    remove_formatting
        [⟨[PyLine.toks [toCh "a", toCh "b", toCh "c", toCh "d", toCh "e",
          toCh "f", toCh "g", toCh "h", toCh "i", toCh "j", toCh "k",
          toCh "l"]]⟩] =
      .exn .typeError :=
  (c6_amended [mkTable [toCh "a b c d e f g h i j k l"]]
      [⟨[PyLine.toks [toCh "a", toCh "b", toCh "c", toCh "d", toCh "e",
        toCh "f", toCh "g", toCh "h", toCh "i", toCh "j", toCh "k",
        toCh "l"]]⟩] (by decide)).2
    ⟨⟨[PyLine.toks [toCh "a", toCh "b", toCh "c", toCh "d", toCh "e",
      toCh "f", toCh "g", toCh "h", toCh "i", toCh "j", toCh "k",
      toCh "l"]]⟩, by decide, by decide⟩

/-- Indices produced by `idxsFrom` are at least the start index. -/
theorem idxsFrom_ge (p : List Char → Bool) (l : List (List Char)) :
    ∀ n, ∀ m ∈ idxsFrom p n l, n ≤ m := by
  induction l with
  | nil => intro n m hm; cases hm
  | cons x t ih =>
    intro n m hm
    by_cases hp : p x
    · rw [idxsFrom, if_pos hp] at hm
      rcases List.mem_cons.mp hm with h1 | h1
      · omega
      · have := ih (n + 1) m h1
        omega
    · rw [idxsFrom, if_neg hp] at hm
      have := ih (n + 1) m hm
      omega

/-- Index collection `idxsFrom` is strictly increasing. -/
theorem idxsFrom_pairwise (p : List Char → Bool) (l : List (List Char)) :
    ∀ n, (idxsFrom p n l).Pairwise (· < ·) := by
  induction l with
  | nil => intro n; exact List.Pairwise.nil
  | cons x t ih =>
    intro n
    by_cases hp : p x
    · rw [idxsFrom, if_pos hp]
      exact List.Pairwise.cons
        (fun m hm => by have := idxsFrom_ge p t (n + 1) m hm; omega)
        (ih (n + 1))
    · rw [idxsFrom, if_neg hp]
      exact ih (n + 1)

/-- Linear search `find?` returns the head of the filtered list. -/
theorem find?_eq_head_filter (p : ℕ → Bool) (l : List ℕ) :
    l.find? p = (l.filter p).head? := by
  induction l with
  | nil => rfl
  | cons x t ih =>
    by_cases hp : p x
    · rw [List.find?_cons_of_pos _ hp, List.filter_cons_of_pos hp]
      rfl
    · rw [List.find?_cons_of_neg _ (by simp [hp]),
        List.filter_cons_of_neg (by simp [hp]), ih]

/-- Folding `min` over elements all at least the seed returns the seed. -/
theorem foldl_min_of_le (xs : List ℕ) (x : ℕ) (h : ∀ y ∈ xs, x ≤ y) :
    xs.foldl min x = x := by
  induction xs with
  | nil => rfl
  | cons y t ih =>
    rw [List.foldl_cons, min_eq_left (h y (List.mem_cons_self y t))]
    exact ih (fun z hz => h z (List.mem_cons_of_mem y hz))

/-- On a strictly sorted footer list, the nearest (minimal) qualifying
footer of the spec is exactly the first qualifying footer in list order
picked by the code. -/
theorem nearestAbove_eq_find? (h : ℕ) (fs : List ℕ)
    (hs : fs.Pairwise (· < ·)) :
    nearestAbove h fs = fs.find? (fun f => h < f) := by
  rw [find?_eq_head_filter]
  rcases hfl : fs.filter (fun f => h < f) with _ | ⟨x, xs⟩
  · simp [nearestAbove, hfl]
  · have hsf : (fs.filter (fun f => h < f)).Pairwise (· < ·) := hs.filter _
    rw [hfl] at hsf
    have hx : ∀ y ∈ xs, x ≤ y :=
      fun y hy => Nat.le_of_lt (List.rel_of_pairwise_cons hsf hy)
    simp [nearestAbove, hfl, foldl_min_of_le xs x hx]

/-- On a strictly sorted footer list the code's pairing loop computes the
spec's nearest-unused-footer pairing. -/
theorem pairLoop_eq_specPair (hs : List ℕ) :
    ∀ fs : List ℕ, fs.Pairwise (· < ·) → pairLoop hs fs = specPair hs fs := by
  induction hs with
  | nil => intro fs _; rfl
  | cons h1 t ih =>
    intro fs hsort
    rw [pairLoop, specPair, ← nearestAbove_eq_find? h1 fs hsort]
    rcases hna : nearestAbove h1 fs with _ | f
    · exact ih fs hsort
    · show (h1, f) :: pairLoop t (fs.erase f) =
        (h1, f) :: specPair t (fs.erase f)
      rw [ih (fs.erase f) (hsort.sublist (fs.erase_sublist f))]

/-- Every pair produced by the pairing loop takes its footer from the
footer list, strictly beyond its header. -/
theorem pairLoop_mem (hs : List ℕ) :
    ∀ fs : List ℕ, ∀ pr ∈ pairLoop hs fs, pr.2 ∈ fs ∧ pr.1 < pr.2 := by
  induction hs with
  | nil => intro fs pr hpr; cases hpr
  | cons h1 t ih =>
    intro fs pr hpr
    rw [pairLoop] at hpr
    rcases hf : fs.find? (fun f => h1 < f) with _ | f
    all_goals rw [hf] at hpr
    · exact ih fs pr hpr
    · rcases List.mem_cons.mp hpr with h2 | h2
      · subst h2
        have hp := List.find?_some hf
        exact ⟨List.mem_of_find?_eq_some hf, of_decide_eq_true hp⟩
      · have := ih (fs.erase f) pr h2
        exact ⟨List.mem_of_mem_erase this.1, this.2⟩

/-- Each footer closes at most one table: the footers of the produced
pairs are pairwise distinct. -/
theorem pairLoop_snd_nodup (hs : List ℕ) :
    ∀ fs : List ℕ, fs.Nodup → ((pairLoop hs fs).map Prod.snd).Nodup := by
  induction hs with
  | nil => intro fs _; exact List.Pairwise.nil
  | cons h1 t ih =>
    intro fs hnd
    rw [pairLoop]
    rcases hf : fs.find? (fun f => h1 < f) with _ | f
    · exact ih fs hnd
    · rw [List.map_cons]
      refine List.Pairwise.cons (fun m hm => ?_) (ih (fs.erase f) (hnd.erase f))
      rcases List.mem_map.mp hm with ⟨pr, hpr, hsnd⟩
      have hmem := (pairLoop_mem t (fs.erase f) pr hpr).1
      rw [hsnd] at hmem
      intro hfm
      rw [← hfm] at hmem
      exact absurd ((hnd.mem_erase_iff).mp hmem).1 (by simp)

/-- C5: whenever `isolate_table` returns tables, (i) the code's pairing
loop agrees with the spec's rule — each retained header is paired with the
nearest not-yet-used footer index strictly greater than it, headers with
no such footer produce no table — (ii) the returned tables are exactly the
slices from `h + 3` up to the matched footer (exclusive) of those pairs,
(iii) the matched footers are pairwise distinct (each footer closes at
most one table), and (iv) every pair takes its footer from the footer
list, strictly beyond its header. -/
theorem c5_pairing (full : List Char) (ts : List Table)
    (h : isolate_table full = some ts) :
    pairLoop (headerIdxs (logLines full)) (footerIdxs (logLines full)) =
      specPair (headerIdxs (logLines full)) (footerIdxs (logLines full)) ∧
    ts =
      (specPair (headerIdxs (logLines full))
          (footerIdxs (logLines full))).map
        (fun p =>
          mkTable
            (((logLines full).drop (p.1 + 3)).take (p.2 - (p.1 + 3)))) ∧
    ((specPair (headerIdxs (logLines full))
        (footerIdxs (logLines full))).map Prod.snd).Nodup ∧
    ∀ pr ∈ specPair (headerIdxs (logLines full))
        (footerIdxs (logLines full)),
      pr.1 < pr.2 ∧ pr.2 ∈ footerIdxs (logLines full) := by
  have hsort : (footerIdxs (logLines full)).Pairwise (· < ·) :=
    idxsFrom_pairwise run165 (logLines full) 0
  have hnd : (footerIdxs (logLines full)).Nodup :=
    hsort.imp Nat.ne_of_lt
  have heq := pairLoop_eq_specPair (headerIdxs (logLines full))
    (footerIdxs (logLines full)) hsort
  have hts : ts =
      (pairLoop (headerIdxs (logLines full))
          (footerIdxs (logLines full))).map
        (fun p =>
          mkTable
            (((logLines full).drop (p.1 + 3)).take (p.2 - (p.1 + 3)))) := by
    simp only [isolate_table] at h
    split at h
    · cases h
    · injection h with h1
      exact h1.symm
  refine ⟨heq, by rw [hts, heq], ?_, ?_⟩
  · rw [← heq]
    exact pairLoop_snd_nodup (headerIdxs (logLines full))
      (footerIdxs (logLines full)) hnd
  · intro pr hpr
    rw [← heq] at hpr
    have := pairLoop_mem (headerIdxs (logLines full))
      (footerIdxs (logLines full)) pr hpr
    exact ⟨this.2, this.1⟩

/-- C5 witness: the pairing theorem applied to the concrete scenario text
(one retained header at index 0, one footer at index 4). -/
theorem c5_witness :
    pairLoop (headerIdxs (logLines textC1)) (footerIdxs (logLines textC1)) =
      specPair (headerIdxs (logLines textC1))
        (footerIdxs (logLines textC1)) ∧
    [mkTable [rowC1c]] =
      (specPair (headerIdxs (logLines textC1))
          (footerIdxs (logLines textC1))).map
        (fun p =>
          mkTable
            (((logLines textC1).drop (p.1 + 3)).take (p.2 - (p.1 + 3)))) ∧
    ((specPair (headerIdxs (logLines textC1))
        (footerIdxs (logLines textC1))).map Prod.snd).Nodup ∧
    ∀ pr ∈ specPair (headerIdxs (logLines textC1))
        (footerIdxs (logLines textC1)),
      pr.1 < pr.2 ∧ pr.2 ∈ footerIdxs (logLines textC1) :=
  c5_pairing textC1 [mkTable [rowC1c]] (by decide)

/-- Splitting a newline-free string yields the string itself. -/
theorem splitNl_no_nl (a : List Char) (h : '\n' ∉ a) : splitNl a = [a] := by
  induction a with
  | nil => rfl
  | cons c t ih =>
    have hc : c ≠ '\n' := fun hc => h (hc ▸ List.mem_cons_self c t)
    rw [splitNl, if_neg hc, ih (fun hm => h (List.mem_cons_of_mem c hm))]

/-- Peeling one line off a split at a newline. -/
theorem splitNl_append (a rest : List Char) (h : '\n' ∉ a) :
    splitNl (a ++ '\n' :: rest) = a :: splitNl rest := by
  induction a with
  | nil => simp [splitNl]
  | cons c t ih =>
    have hc : c ≠ '\n' := fun hc => h (hc ▸ List.mem_cons_self c t)
    rw [List.cons_append, splitNl, if_neg hc,
      ih (fun hm => h (List.mem_cons_of_mem c hm))]

/-- A non-empty list has `isEmpty = false`. -/
theorem isEmpty_false_of_ne (l : List Char) (h : l ≠ []) :
    l.isEmpty = false := by
  cases l with
  | nil => exact absurd rfl h
  | cons c t => rfl

/-- A line whose stripped form tokenizes to 13 tokens is non-empty. -/
theorem ne_nil_of_thirteen (r : List Char)
    (h : (process_line (pyStrip r)).length = 13) : r ≠ [] := by
  intro he
  subst he
  exact absurd h (by decide)

/-- The pairing loop with no footers left produces nothing. -/
theorem pairLoop_fs_nil (hs : List ℕ) : pairLoop hs [] = [] := by
  induction hs with
  | nil => rfl
  | cons h t ih => rw [pairLoop, List.find?_nil, ih]

/-- A populated option yields a singleton field. -/
theorem elim_singleton_ne (o : Option (List Char)) (ho : o ≠ none) :
    o.elim ([] : List PyVal) (fun t => [mapToken t]) ≠ [] := by
  cases o with
  | none => exact absurd rfl ho
  | some t => simp

/-- C1 (amended): for a log text of one header line (matching the header
pattern, tokenizing to 12 or more tokens, and not itself a footer rule),
three data rows (each stripping and tokenizing to 13 tokens, none a footer
rule), and a 165-dash footer rule line, the pipeline
`isolate_table` + `remove_formatting` + `line_to_dataclass` yields exactly
ONE record — built from the third data row, because the table body starts
at `h + 3`, consuming the first two data rows as the fixed two-line
sub-header block — and that record has a non-empty `name` and twelve
populated measurement fields. -/
theorem c1_amended (h r1 r2 r3 f : List Char)
    (hn1 : '\n' ∉ h) (hn2 : '\n' ∉ r1) (hn3 : '\n' ∉ r2) (hn4 : '\n' ∉ r3)
    (hn5 : '\n' ∉ f)
    (hh : searchHeader h = true) (hh12 : 12 ≤ (process_line h).length)
    (hhf : run165 h = false) (hr1f : run165 r1 = false)
    (hr2f : run165 r2 = false) (hr3f : run165 r3 = false)
    (ht1 : (process_line (pyStrip r1)).length = 13)
    (ht2 : (process_line (pyStrip r2)).length = 13)
    (ht3 : (process_line (pyStrip r3)).length = 13)
    (hf : run165 f = true) :
    pipelineRecords
        (h ++ '\n' :: (r1 ++ '\n' :: (r2 ++ '\n' :: (r3 ++ '\n' :: f)))) =
      [mkRec (process_line (pyStrip r3))] ∧
    (mkRec (process_line (pyStrip r3))).name ≠ [] ∧
    (mkRec (process_line (pyStrip r3))).calls ≠ [] ∧
    (mkRec (process_line (pyStrip r3))).t_min ≠ [] ∧
    (mkRec (process_line (pyStrip r3))).min_rank ≠ [] ∧
    (mkRec (process_line (pyStrip r3))).t_avg ≠ [] ∧
    (mkRec (process_line (pyStrip r3))).t_max ≠ [] ∧
    (mkRec (process_line (pyStrip r3))).max_rank ≠ [] ∧
    (mkRec (process_line (pyStrip r3))).total_min ≠ [] ∧
    (mkRec (process_line (pyStrip r3))).total_min_rank ≠ [] ∧
    (mkRec (process_line (pyStrip r3))).total_max ≠ [] ∧
    (mkRec (process_line (pyStrip r3))).total_max_rank ≠ [] ∧
    (mkRec (process_line (pyStrip r3))).total_avg ≠ [] ∧
    (mkRec (process_line (pyStrip r3))).pe ≠ [] := by
  have hhne : h ≠ [] := by
    intro he
    rw [he] at hh
    exact absurd hh (by decide)
  have hfne : f ≠ [] := by
    intro he
    rw [he] at hf
    exact absurd hf (by decide)
  have hr1ne := ne_nil_of_thirteen r1 ht1
  have hr2ne := ne_nil_of_thirteen r2 ht2
  have hr3ne := ne_nil_of_thirteen r3 ht3
  have hsplit :
      splitNl (h ++ '\n' :: (r1 ++ '\n' :: (r2 ++ '\n' :: (r3 ++ '\n' :: f)))) =
        [h, r1, r2, r3, f] := by
    rw [splitNl_append _ _ hn1, splitNl_append _ _ hn2,
      splitNl_append _ _ hn3, splitNl_append _ _ hn4, splitNl_no_nl f hn5]
  have hlines :
      logLines (h ++ '\n' :: (r1 ++ '\n' :: (r2 ++ '\n' :: (r3 ++ '\n' :: f)))) =
        [h, r1, r2, r3, f] := by
    unfold logLines
    rw [hsplit]
    simp [List.filter, isEmpty_false_of_ne _ hhne,
      isEmpty_false_of_ne _ hr1ne, isEmpty_false_of_ne _ hr2ne,
      isEmpty_false_of_ne _ hr3ne, isEmpty_false_of_ne _ hfne]
  have hfoot : footerIdxs [h, r1, r2, r3, f] = [4] := by
    unfold footerIdxs
    rw [idxsFrom, if_neg (by simp [hhf]), idxsFrom, if_neg (by simp [hr1f]),
      idxsFrom, if_neg (by simp [hr2f]), idxsFrom, if_neg (by simp [hr3f]),
      idxsFrom, if_pos (by simp [hf])]
    rfl
  have hhead : headerIdxs [h, r1, r2, r3, f] =
      0 :: (idxsFrom searchHeader 1 [r1, r2, r3, f]).filter
        (fun i => 12 ≤ (process_line ([h, r1, r2, r3, f].getD i [])).length) := by
    unfold headerIdxs allHeaderIdxs
    rw [idxsFrom, if_pos (by simp [hh])]
    rw [List.filter_cons_of_pos (by simpa using hh12)]
  have hpair : ∀ A : List ℕ, pairLoop (0 :: A) [4] = [(0, 4)] := by
    intro A
    rw [pairLoop]
    rw [show List.find? (fun x => decide (0 < x)) [4] = some 4 from rfl]
    show (0, 4) :: pairLoop A ([4].erase 4) = [(0, 4)]
    rw [show [4].erase 4 = ([] : List ℕ) from rfl, pairLoop_fs_nil]
  have hiso :
      isolate_table
          (h ++ '\n' :: (r1 ++ '\n' :: (r2 ++ '\n' :: (r3 ++ '\n' :: f)))) =
        some [mkTable [r3]] := by
    simp only [isolate_table]
    rw [hlines, hhead, hfoot, hpair]
    simp
  have hkeep : keepRow (process_line (pyStrip r3)) = true := by
    simp [keepRow, ht3]
  have hrf :
      remove_formatting [mkTable [r3]] =
        .ok [⟨[PyLine.toks (process_line (pyStrip r3))]⟩] := by
    simp only [remove_formatting, procTable, procLines, process_line_py,
      mkTable, List.map]
    rw [List.filter_cons_of_pos hkeep, List.filter_nil]
    rfl
  have hldc :
      line_to_dataclass (process_line (pyStrip r3)) =
        .ok (mkRec (process_line (pyStrip r3))) := by
    refine ldc_ok _ ?_
    rw [ht3]
  have hget : ∀ k, k < 13 → (process_line (pyStrip r3)).get? k ≠ none := by
    intro k hk
    rw [Ne, List.get?_eq_none, ht3]
    omega
  refine ⟨?_, elim_singleton_ne _ (hget 0 (by norm_num)),
    elim_singleton_ne _ (hget 1 (by norm_num)),
    elim_singleton_ne _ (hget 2 (by norm_num)),
    elim_singleton_ne _ (hget 3 (by norm_num)),
    elim_singleton_ne _ (hget 4 (by norm_num)),
    elim_singleton_ne _ (hget 5 (by norm_num)),
    elim_singleton_ne _ (hget 6 (by norm_num)),
    elim_singleton_ne _ (hget 7 (by norm_num)),
    elim_singleton_ne _ (hget 8 (by norm_num)),
    elim_singleton_ne _ (hget 9 (by norm_num)),
    elim_singleton_ne _ (hget 10 (by norm_num)),
    elim_singleton_ne _ (hget 11 (by norm_num)),
    elim_singleton_ne _ (hget 12 (by norm_num))⟩
  simp only [pipelineRecords, hiso, hrf, normalizedRows]
  simp [hldc]

/-- C1 counterexample: a concrete instance of the claimed scenario — one
qualifying header, three 13-token data rows, one 165-dash footer — on
which the pipeline yields exactly ONE record (from the third row), not
three: the `h + 3` slice consumes the first two data rows. -/
theorem c1_counterexample :
    searchHeader headerC1 = true ∧
    12 ≤ (process_line headerC1).length ∧
    (process_line (pyStrip rowC1a)).length = 13 ∧
    (process_line (pyStrip rowC1b)).length = 13 ∧
    (process_line (pyStrip rowC1c)).length = 13 ∧
    run165 footerC1 = true ∧
    pipelineRecords textC1 = [recC1] ∧
    (pipelineRecords textC1).length = 1 ∧
    (pipelineRecords textC1).length ≠ 3 := by decide

/-- C1 witness: the amended theorem applied to the concrete scenario. -/
theorem c1_witness :
    pipelineRecords textC1 = [mkRec (process_line (pyStrip rowC1c))] ∧
    (mkRec (process_line (pyStrip rowC1c))).name ≠ [] ∧
    (mkRec (process_line (pyStrip rowC1c))).pe ≠ [] := by
  have hc := c1_amended headerC1 rowC1a rowC1b rowC1c footerC1
    (by decide) (by decide) (by decide) (by decide) (by decide) (by decide)
    (by decide) (by decide) (by decide) (by decide) (by decide) (by decide)
    (by decide) (by decide) (by decide)
  exact ⟨hc.1, hc.2.1, hc.2.2.2.2.2.2.2.2.2.2.2.2.2⟩
